import Mathlib

/-!
The iterative Voronoi-treemap fitting loop of d3-voronoi-map.

A shallow embedding of `src/src/d3-voronoi-map.js`.

* JavaScript numbers are read as exact rationals (`ℚ`); a division is the
  exact quotient, so statements that depend on a quotient carry the hypothesis
  that its divisor is not zero.
* The objects the source mutates in place (the treemap points) are passed
  explicitly: every function returns the updated list of points, and every cell
  carries its own point (no two cells share a point object).
* `maxIterationCount` is a natural number.
* The external collaborators (`d3-weighted-voronoi`, `d3-polygon`, `d3-array`,
  `Math.random`, `./flickering-mitigation`) are fields of `Env`.
* A JavaScript `TypeError` (reading a property of `undefined`) and a loop that
  does not stop within the given fuel are the two `Fault`s.
-/

namespace VoronoiMap

/-- A point `[x, y]`. -/
abbrev Point := ℚ × ℚ

/-- The ways a call can fail to return a value. -/
inductive Fault where
  | typeError
  | outOfFuel
  deriving DecidableEq, Repr

/-- The records built by `initialize`, with fields index, weight and originalData. -/
structure BasePoint (ι : Type) where
  index : Nat
  weight : ℚ
  originalData : ι

/-- The treemap points built by `createTreemapPoints`. -/
structure Site (ι : Type) where
  index : Nat
  targetedArea : ℚ
  data : BasePoint ι
  x : ℚ
  y : ℚ
  weight : ℚ

/-- A cell returned by the weighted Voronoi construction: its boundary and
`polygon.site.originalObject`. -/
structure Polygon (ι : Type) where
  points : List Point
  site : Site ι

/-- Inputs of `voronoiMap` and the external collaborators it calls. -/
structure Env (ι : Type) where
  /-- accessor to the weight -/
  weight : ι → ℚ
  convergenceRatio : ℚ
  maxIterationCount : Nat
  minWeightRatio : ℚ
  handleOverweightedVariant : Nat
  /-- the clipping polygon, `wVoronoi.clip()` -/
  clip : List Point
  /-- the call `wVoronoi(points)` of d3-weighted-voronoi -/
  wVoronoi : List (Site ι) → List (Polygon ι)
  /-- the functions `polygonArea`, `polygonCentroid`, `polygonContains` of d3-polygon -/
  polygonArea : List Point → ℚ
  polygonCentroid : List Point → Point
  polygonContains : List Point → Point → Bool
  /-- the function `extent` of d3-array -/
  extent : List ℚ → ℚ × ℚ
  /-- the value returned by the `k`-th call of `Math.random` -/
  random : Nat → ℚ
  /-- the value of `flickeringMitigation.ratio()` for the given total area and the
  errors added since `clear` -/
  flickeringRatio : ℚ → List ℚ → ℚ

/-- The constant `epsilon`. -/
def epsilon : ℚ := 1

def sqr (d : ℚ) : ℚ := d ^ 2

def squaredDistance {ι : Type} (s0 s1 : Site ι) : ℚ :=
  sqr (s1.x - s0.x) + sqr (s1.y - s0.y)

/-! ## Initialisation -/

/-- The fold `data.reduce(function(max, d) ..., -Infinity)`; `none` is `-Infinity`. -/
def maxWeight {ι : Type} (E : Env ι) (data : List ι) : Option ℚ :=
  data.foldl (fun mx d => match mx with
    | none => some (E.weight d)
    | some m => some (max m (E.weight d))) none

/-- The product `maxWeight*minWeightRatio`; it is read only when `data` is not empty. -/
def minAllowedWeight {ι : Type} (E : Env ι) (data : List ι) : Option ℚ :=
  (maxWeight E data).map (fun m => m * E.minWeightRatio)

/-- The value `Math.max(weight(d), minAllowedWeight)`. -/
def clampWeight (w : ℚ) : Option ℚ → ℚ
  | none => w
  | some m => max w m

/-- The `data.map` of `initialize`, from index `i` on. -/
def extractWeights {ι : Type} (E : Env ι) (minAllowed : Option ℚ) :
    Nat → List ι → List (BasePoint ι)
  | _, [] => []
  | i, d :: ds =>
    { index := i, weight := clampWeight (E.weight d) minAllowed, originalData := d }
      :: extractWeights E minAllowed (i + 1) ds

/-- The rejection sampling of one position: `k` counts the calls of `Math.random`
made so far, the result carries the count after the accepted draw. -/
def samplePoint {ι : Type} (E : Env ι) (x0 dx y0 dy : ℚ) : Nat → Nat → Except Fault (Point × Nat)
  | 0, _ => .error .outOfFuel
  | fuel + 1, k =>
    let x := x0 + dx * E.random k
    let y := y0 + dy * E.random (k + 1)
    if E.polygonContains E.clip (x, y) then .ok ((x, y), k + 2)
    else samplePoint E x0 dx y0 dy fuel (k + 2)

/-- The `basePoints.map` of `createTreemapPoints`. The quotient
`totalArea*bp.weight/totalWeight` is the exact one: for `totalWeight = 0` the source
has `NaN` or an infinity where this definition has 0, so what is stated of a
targeted area carries the hypothesis that the clamped weights do not add up to 0. -/
def placePoints {ι : Type} (E : Env ι) (totalArea totalWeight defaultWeight x0 dx y0 dy : ℚ)
    (fuel : Nat) : Nat → List (BasePoint ι) → Except Fault (List (Site ι))
  | _, [] => .ok []
  | k, bp :: bps =>
    match samplePoint E x0 dx y0 dy fuel k with
    | .error e => .error e
    | .ok (p, k1) =>
      match placePoints E totalArea totalWeight defaultWeight x0 dx y0 dy fuel k1 bps with
      | .error e => .error e
      | .ok rest =>
        .ok ({ index := bp.index, targetedArea := totalArea * bp.weight / totalWeight,
               data := bp, x := p.1, y := p.2, weight := defaultWeight } :: rest)

def createTreemapPoints {ι : Type} (E : Env ι) (siteCount : Nat) (totalArea : ℚ) (fuel : Nat)
    (basePoints : List (BasePoint ι)) : Except Fault (List (Site ι)) :=
  let totalWeight := basePoints.foldl (fun acc bp => acc + bp.weight) 0
  let avgArea := totalArea / siteCount
  let xExtent := E.extent (E.clip.map fun p => p.1)
  let yExtent := E.extent (E.clip.map fun p => p.2)
  let dx := xExtent.2 - xExtent.1
  let dy := yExtent.2 - yExtent.1
  let defaultWeight := avgArea / 2
  placePoints E totalArea totalWeight defaultWeight xExtent.1 dx yExtent.1 dy fuel 0 basePoints

/-- The treemap points that `initialize` hands to the weighted Voronoi construction. -/
def initialPoints {ι : Type} (E : Env ι) (siteCount : Nat) (totalArea : ℚ) (fuel : Nat)
    (data : List ι) : Except Fault (List (Site ι)) :=
  createTreemapPoints E siteCount totalArea fuel
    (extractWeights E (minAllowedWeight E data) 0 data)

/-- The function `initialize` of the source (that word is reserved in Lean). -/
def initialise {ι : Type} (E : Env ι) (siteCount : Nat) (totalArea : ℚ) (fuel : Nat)
    (data : List ι) : Except Fault (List (Polygon ι)) :=
  match initialPoints E siteCount totalArea fuel data with
  | .error e => .error e
  | .ok treemapPoints => .ok (E.wVoronoi treemapPoints)

/-! ## The overweight correctors -/

/-- The pairs `(i, j)` visited by `for i < siteCount`, `for j = i+1 .. siteCount-1`,
in the order of the scan. -/
def scanPairs (siteCount : Nat) : List (Nat × Nat) :=
  (List.range siteCount).flatMap fun i =>
    (List.range' (i + 1) (siteCount - (i + 1))).map fun j => (i, j)

/-- The site called `weightest` for the pair `(tpi, tpj)`. -/
def weightest {ι : Type} (tpi tpj : Site ι) : Site ι :=
  if tpi.weight > tpj.weight then tpi else tpj

/-- The site called `lightest` for the pair `(tpi, tpj)`. -/
def lightest {ι : Type} (tpi tpj : Site ι) : Site ι :=
  if tpi.weight > tpj.weight then tpj else tpi

/-- The test `sqrD < weightest.weight-lightest.weight`. -/
def overweighted {ι : Type} (tpi tpj : Site ι) : Bool :=
  decide (squaredDistance tpi tpj < (weightest tpi tpj).weight - (lightest tpi tpj).weight)

/-- One pass of the two nested `for` loops up to their `break`: the first pair of
the scan that is overweighted, or `none` when the scan ends with `fixApplied`
false. Reading `treemapPoints[i]` past the end of the array is a `TypeError`. -/
def findOverweighted {ι : Type} (treemapPoints : List (Site ι)) :
    List (Nat × Nat) → Except Fault (Option (Nat × Nat))
  | [] => .ok none
  | (i, j) :: rest =>
    match treemapPoints[i]?, treemapPoints[j]? with
    | some tpi, some tpj =>
      if overweighted tpi tpj then .ok (some (i, j)) else findOverweighted treemapPoints rest
    | _, _ => .error .typeError

/-- The fix of `handleOverweighted0` at the pair `(i, j)`: the heavier weight is lowered. -/
def fix0 {ι : Type} (treemapPoints : List (Site ι)) (i j : Nat) : List (Site ι) :=
  match treemapPoints[i]?, treemapPoints[j]? with
  | some tpi, some tpj =>
    let sqrD := squaredDistance tpi tpj
    let adaptedWeight := max (sqrD + (lightest tpi tpj).weight / 2) epsilon
    if tpi.weight > tpj.weight then treemapPoints.set i { tpi with weight := adaptedWeight }
    else treemapPoints.set j { tpj with weight := adaptedWeight }
  | _, _ => treemapPoints

/-- The fix of `handleOverweighted1` at the pair `(i, j)`: the lighter weight is raised. -/
def fix1 {ι : Type} (treemapPoints : List (Site ι)) (i j : Nat) : List (Site ι) :=
  match treemapPoints[i]?, treemapPoints[j]? with
  | some tpi, some tpj =>
    let sqrD := squaredDistance tpi tpj
    let overweight := (weightest tpi tpj).weight - (lightest tpi tpj).weight - sqrD
    if tpi.weight > tpj.weight then
      treemapPoints.set j { tpj with weight := tpj.weight + (overweight + epsilon) }
    else treemapPoints.set i { tpi with weight := tpi.weight + (overweight + epsilon) }
  | _, _ => treemapPoints

/-- The `do ... while (fixApplied)` loop of `handleOverweighted0`; the fuel bounds
the number of passes. -/
def handleOverweighted0 {ι : Type} (siteCount : Nat) :
    Nat → List (Site ι) → Except Fault (List (Site ι))
  | 0, _ => .error .outOfFuel
  | fuel + 1, treemapPoints =>
    match findOverweighted treemapPoints (scanPairs siteCount) with
    | .error e => .error e
    | .ok none => .ok treemapPoints
    | .ok (some (i, j)) => handleOverweighted0 siteCount fuel (fix0 treemapPoints i j)

/-- The `do ... while (fixApplied)` loop of `handleOverweighted1`; the fuel bounds
the number of passes. -/
def handleOverweighted1 {ι : Type} (siteCount : Nat) :
    Nat → List (Site ι) → Except Fault (List (Site ι))
  | 0, _ => .error .outOfFuel
  | fuel + 1, treemapPoints =>
    match findOverweighted treemapPoints (scanPairs siteCount) with
    | .error e => .error e
    | .ok none => .ok treemapPoints
    | .ok (some (i, j)) => handleOverweighted1 siteCount fuel (fix1 treemapPoints i j)

/-- The variable `handleOverweighted` as set by `setHandleOverweighted`; for an
unknown variant it stays `undefined` and calling it is a `TypeError`. -/
def handleOverweighted {ι : Type} (E : Env ι) (siteCount fuel : Nat)
    (treemapPoints : List (Site ι)) : Except Fault (List (Site ι)) :=
  match E.handleOverweightedVariant with
  | 0 => handleOverweighted0 siteCount fuel treemapPoints
  | 1 => handleOverweighted1 siteCount fuel treemapPoints
  | _ => .error .typeError

/-! ## Adaptation of placements and weights -/

/-- The body of the loop of `adaptPlacements` for one polygon, `d` being
`1-flickeringMitigation`. -/
def movePoint {ι : Type} (E : Env ι) (d : ℚ) (polygon : Polygon ι) : Site ι :=
  let treemapPoint := polygon.site
  let centroid := E.polygonCentroid polygon.points
  let dx := (centroid.1 - treemapPoint.x) * d
  let dy := (centroid.2 - treemapPoint.y) * d
  { treemapPoint with x := treemapPoint.x + dx, y := treemapPoint.y + dy }

/-- The function `adaptPlacements`; it returns `newTreemapPoints` after the
correction. `polygons[i]` is `undefined` when fewer than `siteCount` polygons
are given. -/
def adaptPlacements {ι : Type} (E : Env ι) (siteCount fuel : Nat) (polygons : List (Polygon ι))
    (flickeringMitigationRatio : ℚ) : Except Fault (List (Site ι)) :=
  let flickeringInfluence : ℚ := 1 / 2
  let flickeringMitigation := flickeringInfluence * flickeringMitigationRatio
  let d := 1 - flickeringMitigation
  if polygons.length < siteCount then .error .typeError
  else handleOverweighted E siteCount fuel ((polygons.take siteCount).map (movePoint E d))

/-- The value of `adaptRatio` after the two clamps of `adaptWeights`. -/
def clampedAdaptRatio (flickeringInfluence flickeringMitigation adaptRatio : ℚ) : ℚ :=
  min (max adaptRatio ((1 - flickeringInfluence) + flickeringMitigation))
    ((1 + flickeringInfluence) - flickeringMitigation)

/-- The body of the loop of `adaptWeights` for one polygon. The quotient
`targetedArea/currentArea` is the exact one: for a cell of area 0 the source has
`NaN` or an infinity (and `Math.max(NaN, epsilon)` is `NaN`) where this definition
has a number, so what is stated of the new weight carries the hypothesis that the
area of the cell is not 0. -/
def reweighPoint {ι : Type} (E : Env ι) (flickeringInfluence flickeringMitigation : ℚ)
    (polygon : Polygon ι) : Site ι :=
  let treemapPoint := polygon.site
  let currentArea := E.polygonArea polygon.points
  let adaptRatio := clampedAdaptRatio flickeringInfluence flickeringMitigation
    (treemapPoint.targetedArea / currentArea)
  let adaptedWeight := max (treemapPoint.weight * adaptRatio) epsilon
  { treemapPoint with weight := adaptedWeight }

/-- The function `adaptWeights`; it returns `newTreemapPoints` after the correction. -/
def adaptWeights {ι : Type} (E : Env ι) (siteCount fuel : Nat) (polygons : List (Polygon ι))
    (flickeringMitigationRatio : ℚ) : Except Fault (List (Site ι)) :=
  let flickeringInfluence : ℚ := 1 / 10
  let flickeringMitigation := flickeringInfluence * flickeringMitigationRatio
  if polygons.length < siteCount then .error .typeError
  else handleOverweighted E siteCount fuel
    ((polygons.take siteCount).map (reweighPoint E flickeringInfluence flickeringMitigation))

/-- The array `polygons.map(...)` of the points `p.site.originalObject`, after an
adaptation step updated the points of the first `siteCount` polygons. -/
def adaptedTreemapPoints {ι : Type} (siteCount : Nat) (newTreemapPoints : List (Site ι))
    (polygons : List (Polygon ι)) : List (Site ι) :=
  newTreemapPoints ++ (polygons.drop siteCount).map fun p => p.site

def adapt {ι : Type} (E : Env ι) (siteCount fuel : Nat) (polygons : List (Polygon ι))
    (flickeringMitigationRatio : ℚ) : Except Fault (List (Polygon ι)) :=
  match adaptPlacements E siteCount fuel polygons flickeringMitigationRatio with
  | .error e => .error e
  | .ok placed =>
    let polygons1 := E.wVoronoi (adaptedTreemapPoints siteCount placed polygons)
    match adaptWeights E siteCount fuel polygons1 flickeringMitigationRatio with
    | .error e => .error e
    | .ok reweighed => .ok (E.wVoronoi (adaptedTreemapPoints siteCount reweighed polygons1))

def computeAreaError {ι : Type} (E : Env ι) (siteCount : Nat) (polygons : List (Polygon ι)) :
    Except Fault ℚ :=
  if polygons.length < siteCount then .error .typeError
  else .ok ((polygons.take siteCount).foldl
    (fun areaErrorSum polygon =>
      areaErrorSum + |polygon.site.targetedArea - E.polygonArea polygon.points|) 0)

/-! ## The fitting loop -/

/-- The variables of `_voronoiMap` that the loop updates, `iterationCount` apart.
`areaError` is `none` while the variable is `undefined`; `errors` are the values
given to `flickeringMitigation.add` since `clear`; `ticks` are the calls of `tick`. -/
structure LoopState (ι : Type) where
  polygons : List (Polygon ι)
  converged : Bool
  areaError : Option ℚ
  errors : List ℚ
  ticks : List (List (Polygon ι) × Nat)

/-- The body of the `while` loop of `_voronoiMap`, entered with the given
`iterationCount`. -/
def loopBody {ι : Type} (E : Env ι) (siteCount : Nat) (totalArea : ℚ) (fuel : Nat)
    (iterationCount : Nat) (s : LoopState ι) : Except Fault (LoopState ι) :=
  match adapt E siteCount fuel s.polygons (E.flickeringRatio totalArea s.errors) with
  | .error e => .error e
  | .ok polygons =>
    match computeAreaError E siteCount polygons with
    | .error e => .error e
    | .ok areaError =>
      .ok { polygons := polygons
            converged := decide (areaError < E.convergenceRatio * totalArea)
            areaError := some areaError
            errors := s.errors ++ [areaError]
            ticks := s.ticks ++ [(polygons, iterationCount + 1)] }

set_option linter.unusedVariables false in
/-- The loop `while (!(converged || iterationCount>=maxIterationCount))`. -/
def mainLoop {ι : Type} (E : Env ι) (siteCount : Nat) (totalArea : ℚ) (fuel : Nat)
    (iterationCount : Nat) (s : LoopState ι) : Except Fault (Nat × LoopState ι) :=
  if h : s.converged = true ∨ iterationCount ≥ E.maxIterationCount then .ok (iterationCount, s)
  else
    match loopBody E siteCount totalArea fuel iterationCount s with
    | .error e => .error e
    | .ok s1 => mainLoop E siteCount totalArea fuel (iterationCount + 1) s1
termination_by E.maxIterationCount - iterationCount
decreasing_by
  simp only [not_or, ge_iff_le, not_le] at h
  omega

/-- What a call of `_voronoiMap` returns (`convergenceRatio` is `none` when
`areaError` is still `undefined`, the quotient then being `NaN`), together with
the calls of `tick` and the errors given to the flickering mitigation. -/
structure Output (ι : Type) where
  polygons : List (Polygon ι)
  iterationCount : Nat
  convergenceRatio : Option ℚ
  ticks : List (List (Polygon ι) × Nat)
  errors : List ℚ

/-- The value `totalArea` set by `_voronoiMap`. -/
def totalAreaOf {ι : Type} (E : Env ι) : ℚ := |E.polygonArea E.clip|

/-- The function `_voronoiMap` of the source. -/
def voronoiMap {ι : Type} (E : Env ι) (fuel : Nat) (data : List ι) : Except Fault (Output ι) :=
  let siteCount := data.length
  let totalArea := totalAreaOf E
  match initialise E siteCount totalArea fuel data with
  | .error e => .error e
  | .ok polygons =>
    match mainLoop E siteCount totalArea fuel 0
        { polygons := polygons, converged := false, areaError := none, errors := [],
          ticks := [(polygons, 0)] } with
    | .error e => .error e
    | .ok (iterationCount, s) =>
      .ok { polygons := s.polygons
            iterationCount := iterationCount
            convergenceRatio := s.areaError.map fun areaError => areaError / totalArea
            ticks := s.ticks
            errors := s.errors }

/-! ## Quantities the statements speak of -/

/-- The weights-for-targeting of the items: the `weight` fields of the records that
`initialize` passes to `createTreemapPoints`. -/
def clampedWeights {ι : Type} (E : Env ι) (data : List ι) : List ℚ :=
  (extractWeights E (minAllowedWeight E data) 0 data).map fun bp => bp.weight

/-- The area error of a list of cells, each compared with the targeted area of its
own site. -/
def cellsAreaError {ι : Type} (E : Env ι) (polygons : List (Polygon ι)) : ℚ :=
  (polygons.map fun p => |p.site.targetedArea - E.polygonArea p.points|).sum

/-- What holds of the variables of `_voronoiMap` each time the loop test is
evaluated with `iterationCount = i`. -/
def LoopInv {ι : Type} (E : Env ι) (n : Nat) (T : ℚ) (i : Nat) (s : LoopState ι) : Prop :=
  s.errors.length = i ∧
  s.ticks.map (fun t => t.2) = List.range (i + 1) ∧
  s.ticks.getLast? = some (s.polygons, i) ∧
  s.areaError = s.errors.getLast? ∧
  (s.converged = true ↔ ∃ e, s.areaError = some e ∧ e < E.convergenceRatio * T) ∧
  (∀ e ∈ s.errors.dropLast, E.convergenceRatio * T ≤ e) ∧
  (∀ e, s.areaError = some e → computeAreaError E n s.polygons = .ok e)

/-- The site `o` is the site `t` up to its weight. -/
def sameButWeight {ι : Type} (o t : Site ι) : Prop :=
  o = { t with weight := o.weight }

/-- The contract of the weighted Voronoi construction: every returned cell carries
one of the points it was given, no point carries two cells (some points may get no
cell). -/
def OracleContract {ι : Type} (E : Env ι) : Prop :=
  ∀ pts : List (Site ι), List.Subperm ((E.wVoronoi pts).map fun p => p.site) pts

/-- The margin `dist² - |w_i - w_j|` of a pair of sites. -/
def margin {ι : Type} (a b : Site ι) : ℚ :=
  squaredDistance a b - |a.weight - b.weight|

/-- The pairs `(iterationCount, variables)` with which the loop test of `_voronoiMap`
is evaluated in a run that starts the loop with the cells `polygons0`. -/
inductive Reached {ι : Type} (E : Env ι) (n : Nat) (T : ℚ) (fuel : Nat)
    (polygons0 : List (Polygon ι)) : Nat → LoopState ι → Prop where
  | start : Reached E n T fuel polygons0 0
      { polygons := polygons0, converged := false, areaError := none, errors := [],
        ticks := [(polygons0, 0)] }
  | step {i : Nat} {s s1 : LoopState ι} : Reached E n T fuel polygons0 i s →
      s.converged = false → i < E.maxIterationCount →
      loopBody E n T fuel i s = .ok s1 → Reached E n T fuel polygons0 (i + 1) s1

/-! ## A concrete environment

The square clip of side 10, with collaborators that are exact on the rectangles
used below, the weighted Voronoi construction returning the given cells in the
order of the points. -/

def squareClip : List Point := [(0, 0), (10, 0), (10, 10), (0, 10)]

/-- The sum of `a[1]*b[0] - a[0]*b[1]` over the edges `(a, b)` that follow `a`. -/
def shoelaceSum : Point → List Point → ℚ
  | _, [] => 0
  | a, b :: rest => (a.2 * b.1 - a.1 * b.2) + shoelaceSum b rest

/-- The signed area of a polygon by the shoelace formula, the first edge coming from
the last vertex. -/
def shoelaceArea (polygon : List Point) : ℚ :=
  match polygon.getLast? with
  | none => 0
  | some b => shoelaceSum b polygon / 2

/-- The mean of the vertices, which is the centroid of a rectangle. -/
def vertexMean (polygon : List Point) : Point :=
  ((polygon.map fun p => p.1).sum / polygon.length,
   (polygon.map fun p => p.2).sum / polygon.length)

/-- The least and the greatest value of a non-empty list. -/
def minMax : List ℚ → ℚ × ℚ
  | [] => (0, 0)
  | v :: vs => (vs.foldl min v, vs.foldl max v)

/-- Containment in the open square of side 10. -/
def insideSquare (p : Point) : Bool :=
  decide (0 < p.1 ∧ p.1 < 10 ∧ 0 < p.2 ∧ p.2 < 10)

/-- Items are their own weights; `cells` are the polygons the construction returns,
`draws` the first values of `Math.random`. -/
def demoEnv (cells : List (List Point)) (draws : List ℚ) (c : ℚ) (m : Nat) : Env ℚ where
  weight := fun d => d
  convergenceRatio := c
  maxIterationCount := m
  minWeightRatio := 1 / 100
  handleOverweightedVariant := 1
  clip := squareClip
  wVoronoi := fun pts => List.zipWith (fun cell s => { points := cell, site := s }) cells pts
  polygonArea := shoelaceArea
  polygonCentroid := vertexMean
  polygonContains := fun _ p => insideSquare p
  extent := minMax
  random := fun k => draws.getD k (1 / 2)
  flickeringRatio := fun _ _ => 0

/-- The left and the right half of the square, with positive `shoelaceArea`. -/
def halfCells : List (List Point) :=
  [[(0, 0), (0, 10), (5, 10), (5, 0)], [(5, 0), (5, 10), (10, 10), (10, 0)]]

/-- The draws that put two points at `(2, 5)` and `(8, 5)`. -/
def twoDraws : List ℚ := [1 / 5, 1 / 2, 4 / 5, 1 / 2]

/-- Two items of weight 1 in the square, default thresholds. -/
def twoEnv : Env ℚ := demoEnv halfCells twoDraws (1 / 100) 50

/-- The two points that `initialize` creates in `twoEnv` for the items `[1, 1]`. -/
def twoPoints : List (Site ℚ) :=
  [{ index := 0, targetedArea := 50, data := { index := 0, weight := 1, originalData := 1 },
     x := 2, y := 5, weight := 25 },
   { index := 1, targetedArea := 50, data := { index := 1, weight := 1, originalData := 1 },
     x := 8, y := 5, weight := 25 }]

/-- The two points that `initialize` creates in `twoEnv` for the items `[0, 100]`. -/
def unevenPoints : List (Site ℚ) :=
  [{ index := 0, targetedArea := 100 / 101,
     data := { index := 0, weight := 1, originalData := 0 }, x := 2, y := 5, weight := 25 },
   { index := 1, targetedArea := 10000 / 101,
     data := { index := 1, weight := 100, originalData := 100 }, x := 8, y := 5, weight := 25 }]

/-- Two points at squared distance 9 whose weights differ by 19. -/
def farPoints : List (Site ℚ) :=
  [{ index := 0, targetedArea := 50, data := { index := 0, weight := 1, originalData := 1 },
     x := 0, y := 0, weight := 20 },
   { index := 1, targetedArea := 50, data := { index := 1, weight := 1, originalData := 1 },
     x := 3, y := 0, weight := 1 }]

/-- The heavier of the two `farPoints`. -/
def heavyPoint : Site ℚ :=
  { index := 0, targetedArea := 50, data := { index := 0, weight := 1, originalData := 1 },
    x := 0, y := 0, weight := 20 }

/-- The lighter of the two `farPoints` after the fix of `handleOverweighted1`. -/
def raisedPoint : Site ℚ :=
  { index := 1, targetedArea := 50, data := { index := 1, weight := 1, originalData := 1 },
    x := 3, y := 0, weight := 12 }

/-- The list `farPoints` after the fix of `handleOverweighted1`. -/
def farPointsRaised : List (Site ℚ) := [heavyPoint, raisedPoint]

/-- Two points at the same position whose weights differ by 1. -/
def coincidentPoints : List (Site ℚ) :=
  [{ index := 0, targetedArea := 50, data := { index := 0, weight := 1, originalData := 1 },
     x := 0, y := 0, weight := 2 },
   { index := 1, targetedArea := 50, data := { index := 1, weight := 1, originalData := 1 },
     x := 0, y := 0, weight := 1 }]

/-- The cells of `twoPoints`. -/
def twoCells0 : List (Polygon ℚ) :=
  [{ points := [(0, 0), (0, 10), (5, 10), (5, 0)],
     site := { index := 0, targetedArea := 50,
               data := { index := 0, weight := 1, originalData := 1 },
               x := 2, y := 5, weight := 25 } },
   { points := [(5, 0), (5, 10), (10, 10), (10, 0)],
     site := { index := 1, targetedArea := 50,
               data := { index := 1, weight := 1, originalData := 1 },
               x := 8, y := 5, weight := 25 } }]

/-- The left cell after one iteration in `twoEnv`. -/
def leftCell : Polygon ℚ :=
  { points := [(0, 0), (0, 10), (5, 10), (5, 0)],
    site := { index := 0, targetedArea := 50,
              data := { index := 0, weight := 1, originalData := 1 },
              x := 5 / 2, y := 5, weight := 25 } }

/-- The cells after one iteration in `twoEnv`: the points sit on the centroids. -/
def twoCells : List (Polygon ℚ) :=
  [leftCell,
   { points := [(5, 0), (5, 10), (10, 10), (10, 0)],
     site := { index := 1, targetedArea := 50,
               data := { index := 1, weight := 1, originalData := 1 },
               x := 15 / 2, y := 5, weight := 25 } }]

/-- What `_voronoiMap` returns in `twoEnv` for the items `[1, 1]`. -/
def twoOut : Output ℚ :=
  { polygons := twoCells, iterationCount := 1, convergenceRatio := some 0,
    ticks := [(twoCells0, 0), (twoCells, 1)], errors := [0] }

/-- One item, the threshold `convergenceRatio = 0`, at most two iterations; the
construction returns the whole square as the only cell. -/
def oneEnv : Env ℚ := demoEnv [[(0, 0), (0, 10), (10, 10), (10, 0)]] [] 0 2

/-- The only cell of `oneEnv`, its point in the middle of the square. -/
def oneCells : List (Polygon ℚ) :=
  [{ points := [(0, 0), (0, 10), (10, 10), (10, 0)],
     site := { index := 0, targetedArea := 100,
               data := { index := 0, weight := 1, originalData := 1 },
               x := 5, y := 5, weight := 50 } }]

/-- What `_voronoiMap` returns in `oneEnv` for the item `[1]`. -/
def oneOut : Output ℚ :=
  { polygons := oneCells, iterationCount := 2, convergenceRatio := some 0,
    ticks := [(oneCells, 0), (oneCells, 1), (oneCells, 2)], errors := [0, 0] }

/-- One item in the unit square. -/
def unitEnv : Env ℚ :=
  { demoEnv [[(0, 0), (0, 1), (1, 1), (1, 0)]] [] (1 / 100) 50 with
    clip := [(0, 0), (1, 0), (1, 1), (0, 1)]
    polygonContains := fun _ p => decide (0 < p.1 ∧ p.1 < 1 ∧ 0 < p.2 ∧ p.2 < 1) }

/-- The point that `initialize` creates in `unitEnv` for the item `[1]`. -/
def unitPoints : List (Site ℚ) :=
  [{ index := 0, targetedArea := 1, data := { index := 0, weight := 1, originalData := 1 },
     x := 1 / 2, y := 1 / 2, weight := 1 / 2 }]

/-- A cell of area 50 whose site has the weight 1/2 and the targeted area 50. -/
def lightCell : Polygon ℚ :=
  { points := [(0, 0), (0, 10), (5, 10), (5, 0)],
    site := { index := 0, targetedArea := 50,
              data := { index := 0, weight := 1, originalData := 1 },
              x := 5 / 2, y := 5, weight := 1 / 2 } }

/-- The first of two points at the same position, of weight 3/2. -/
def closeHeavy : Site ℚ :=
  { index := 0, targetedArea := 50, data := { index := 0, weight := 1, originalData := 1 },
    x := 0, y := 0, weight := 3 / 2 }

/-- The second of two points at the same position, of weight 1. -/
def closeLight : Site ℚ :=
  { index := 1, targetedArea := 50, data := { index := 1, weight := 1, originalData := 1 },
    x := 0, y := 0, weight := 1 }

/-- The point `closeLight` after the fix of `handleOverweighted1`. -/
def closeLightRaised : Site ℚ :=
  { index := 1, targetedArea := 50, data := { index := 1, weight := 1, originalData := 1 },
    x := 0, y := 0, weight := 5 / 2 }

/-- Two items of weight 1 in the square with `maxIterationCount = 0`. -/
def noIterEnv : Env ℚ := demoEnv halfCells twoDraws (1 / 100) 0

/-- What `_voronoiMap` returns in `noIterEnv` for the items `[1, 1]`;
`convergenceRatio` is `NaN`. -/
def noIterOut : Output ℚ :=
  { polygons := twoCells0, iterationCount := 0, convergenceRatio := none,
    ticks := [(twoCells0, 0)], errors := [] }

/-- One item in the square with the default configuration; the construction returns
the whole square as the only cell. -/
def soloEnv : Env ℚ := demoEnv [[(0, 0), (0, 10), (10, 10), (10, 0)]] [] (1 / 100) 50

/-- What `_voronoiMap` returns in `soloEnv` for the item `[1]`. -/
def soloOut : Output ℚ :=
  { polygons := oneCells, iterationCount := 1, convergenceRatio := some 0,
    ticks := [(oneCells, 0), (oneCells, 1)], errors := [0] }

/-- One item and a clip polygon of zero area, three points on a line; no point
passes the containment test. -/
def flatEnv : Env ℚ :=
  { demoEnv [] [] (1 / 100) 50 with
    clip := [(0, 0), (10, 0), (5, 0)]
    polygonContains := fun _ _ => false }

/-- Two items in the square; the construction returns both half cells only while a
point sits at `x = 2`, and the left cell alone otherwise. -/
def shrinkEnv : Env ℚ :=
  { twoEnv with
    wVoronoi := fun pts =>
      List.zipWith (fun cell s => { points := cell, site := s })
        (if pts.any (fun s => decide (s.x = 2)) then halfCells else halfCells.take 1) pts }

/-- The environment `twoEnv` with a corrector variant that `setHandleOverweighted`
does not know. -/
def oddVariantEnv : Env ℚ := { twoEnv with handleOverweightedVariant := 2 }

/-! ## Facts about the initialisation -/

theorem foldl_add_weight {ι : Type} (bps : List (BasePoint ι)) (a : ℚ) :
    bps.foldl (fun acc bp => acc + bp.weight) a = a + (bps.map fun bp => bp.weight).sum := by
  induction bps generalizing a with
  | nil => simp
  | cons b bs ih => simp [List.foldl_cons, ih, add_assoc]

theorem placePoints_spec {ι : Type} (E : Env ι) (T W dw x0 dx y0 dy : ℚ) (fuel : Nat) :
    ∀ (bps : List (BasePoint ι)) (k : Nat) (sites : List (Site ι)),
      placePoints E T W dw x0 dx y0 dy fuel k bps = .ok sites →
      List.Forall₂ (fun (s : Site ι) (bp : BasePoint ι) =>
        s.data = bp ∧ s.index = bp.index ∧ s.targetedArea = T * bp.weight / W ∧ s.weight = dw)
        sites bps := by
  intro bps
  induction bps with
  | nil =>
    intro k sites h
    simp only [placePoints, Except.ok.injEq] at h
    subst h
    exact List.Forall₂.nil
  | cons bp bps ih =>
    intro k sites h
    simp only [placePoints] at h
    split at h
    · cases h
    · rename_i p k1 _
      split at h
      · cases h
      · rename_i rest hrest
        simp only [Except.ok.injEq] at h
        subst h
        exact List.Forall₂.cons ⟨rfl, rfl, rfl, rfl⟩ (ih k1 rest hrest)

theorem extractWeights_spec {ι : Type} (E : Env ι) (mn : Option ℚ) :
    ∀ (data : List ι) (i : Nat),
      List.Forall₂ (fun (bp : BasePoint ι) (d : ι) =>
        bp.originalData = d ∧ bp.weight = clampWeight (E.weight d) mn)
        (extractWeights E mn i data) data := by
  intro data
  induction data with
  | nil => intro i; exact List.Forall₂.nil
  | cons d ds ih => intro i; exact List.Forall₂.cons ⟨rfl, rfl⟩ (ih (i + 1))

theorem maxWeight_foldl_some {ι : Type} (E : Env ι) (ds : List ι) (m : ℚ) :
    ∃ M, ds.foldl (fun mx d => match mx with
        | none => some (E.weight d)
        | some m => some (max m (E.weight d))) (some m) = some M ∧
      m ≤ M ∧ (∀ d ∈ ds, E.weight d ≤ M) ∧ (M = m ∨ ∃ d ∈ ds, E.weight d = M) := by
  induction ds generalizing m with
  | nil => exact ⟨m, rfl, le_refl _, by simp, Or.inl rfl⟩
  | cons d ds ih =>
    obtain ⟨M, hM, hle, hall, hex⟩ := ih (max m (E.weight d))
    refine ⟨M, by simpa [List.foldl_cons] using hM, le_trans (le_max_left _ _) hle, ?_, ?_⟩
    · intro d1 hd1
      rcases List.mem_cons.1 hd1 with h | h
      · subst h; exact le_trans (le_max_right _ _) hle
      · exact hall d1 h
    · rcases hex with h | ⟨d1, hd1, h⟩
      · rcases max_choice m (E.weight d) with h1 | h1
        · left; rw [h, h1]
        · right; exact ⟨d, List.mem_cons_self _ _, by rw [h, h1]⟩
      · right; exact ⟨d1, List.mem_cons_of_mem _ hd1, h⟩

/-- On a non-empty list `maxWeight` is the greatest of the weights. -/
theorem maxWeight_spec {ι : Type} (E : Env ι) (data : List ι) (hne : data ≠ []) :
    ∃ M, maxWeight E data = some M ∧ (∀ d ∈ data, E.weight d ≤ M) ∧
      ∃ d ∈ data, E.weight d = M := by
  cases data with
  | nil => exact absurd rfl hne
  | cons d ds =>
    obtain ⟨M, hM, hle, hall, hex⟩ := maxWeight_foldl_some E ds (E.weight d)
    refine ⟨M, by simpa [maxWeight, List.foldl_cons] using hM, ?_, ?_⟩
    · intro d1 hd1
      rcases List.mem_cons.1 hd1 with h | h
      · subst h; exact hle
      · exact hall d1 h
    · rcases hex with h | ⟨d1, hd1, h⟩
      · exact ⟨d, List.mem_cons_self _ _, h.symm⟩
      · exact ⟨d1, List.mem_cons_of_mem _ hd1, h⟩

theorem clampedWeights_eq {ι : Type} (E : Env ι) (data : List ι) :
    clampedWeights E data =
      data.map fun d => clampWeight (E.weight d) (minAllowedWeight E data) := by
  unfold clampedWeights
  generalize minAllowedWeight E data = mn
  generalize 0 = i
  induction data generalizing i with
  | nil => rfl
  | cons d ds ih => simp [extractWeights, ih]

theorem sum_map_scaled (T W : ℚ) (ws : List ℚ) :
    (ws.map fun w => T * w / W).sum = T * ws.sum / W := by
  induction ws with
  | nil => simp
  | cons w ws ih => simp only [List.map_cons, List.sum_cons, ih]; ring

theorem forall₂_chain {α β γ : Type} {R : α → β → Prop} {S : β → γ → Prop}
    {Q : α → γ → Prop} (hRS : ∀ a b c, R a b → S b c → Q a c) :
    ∀ {l1 : List α} {l2 : List β} {l3 : List γ},
      List.Forall₂ R l1 l2 → List.Forall₂ S l2 l3 → List.Forall₂ Q l1 l3 := by
  intro l1 l2 l3 h1
  induction h1 generalizing l3 with
  | nil => intro h2; cases h2; exact List.Forall₂.nil
  | cons hab _ ih =>
    intro h2
    cases h2 with
    | cons hbc hrest => exact List.Forall₂.cons (hRS _ _ _ hab hbc) (ih hrest)

/-- The points created by `initialize`, site by site: the record they come from,
their targeted area and their starting weight. -/
theorem initialPoints_spec {ι : Type} (E : Env ι) (n : Nat) (T : ℚ) (fuel : Nat)
    (data : List ι) (sites : List (Site ι))
    (h : initialPoints E n T fuel data = .ok sites) :
    List.Forall₂ (fun (s : Site ι) (d : ι) =>
      s.data.originalData = d ∧
      s.data.weight = clampWeight (E.weight d) (minAllowedWeight E data) ∧
      s.targetedArea = T * s.data.weight / (clampedWeights E data).sum ∧
      s.weight = T / n / 2) sites data := by
  unfold initialPoints createTreemapPoints at h
  have h1 := placePoints_spec E _ _ _ _ _ _ _ fuel _ 0 sites h
  have h2 := extractWeights_spec E (minAllowedWeight E data) data 0
  have hW : (extractWeights E (minAllowedWeight E data) 0 data).foldl
      (fun acc bp => acc + bp.weight) 0 = (clampedWeights E data).sum := by
    rw [foldl_add_weight, zero_add]; rfl
  rw [hW] at h1
  refine forall₂_chain ?_ h1 h2
  rintro s bp d ⟨hd, _, ht, hw⟩ ⟨hbd1, hbd2⟩
  exact ⟨by rw [hd]; exact hbd1, by rw [hd]; exact hbd2, by rw [hd]; exact ht, hw⟩

theorem totalAreaOf_demoEnv (cells : List (List Point)) (draws : List ℚ) (c : ℚ) (m : Nat) :
    totalAreaOf (demoEnv cells draws c m) = 100 := by
  simp [totalAreaOf, demoEnv, squareClip, shoelaceArea, shoelaceSum]
  norm_num

theorem twoEnv_initialPoints :
    initialPoints twoEnv [(1 : ℚ), 1].length (totalAreaOf twoEnv) 1 [1, 1] = .ok twoPoints := by
  unfold twoEnv
  rw [totalAreaOf_demoEnv]
  simp [initialPoints, createTreemapPoints, extractWeights, minAllowedWeight, maxWeight,
    clampWeight, placePoints, samplePoint, demoEnv, squareClip, minMax, insideSquare, twoDraws,
    twoPoints]
  norm_num

theorem twoEnv_clampedWeights : clampedWeights twoEnv [1, 1] = [1, 1] := by
  simp [clampedWeights, extractWeights, minAllowedWeight, maxWeight, clampWeight, twoEnv,
    demoEnv]
  norm_num

theorem map_eq_of_forall₂ {ι : Type} (f : ℚ → ℚ) {sites : List (Site ι)} {ws : List ℚ}
    (hF : List.Forall₂ (fun (s : Site ι) (w : ℚ) => s.targetedArea = f w) sites ws) :
    (sites.map fun s => s.targetedArea) = ws.map f := by
  induction hF with
  | nil => rfl
  | cons hab _ ih => simp [hab, ih]

/-- The targeted areas of the created points, against the clamped weights. -/
theorem initialPoints_targetedArea {ι : Type} (E : Env ι) (n : Nat) (T : ℚ) (fuel : Nat)
    (data : List ι) (sites : List (Site ι)) (h : initialPoints E n T fuel data = .ok sites) :
    List.Forall₂ (fun (s : Site ι) (w : ℚ) =>
      s.targetedArea = T * w / (clampedWeights E data).sum) sites (clampedWeights E data) := by
  have hspec := initialPoints_spec E n T fuel data sites h
  generalize (clampedWeights E data).sum = W at hspec ⊢
  rw [clampedWeights_eq, List.forall₂_map_right_iff]
  exact hspec.imp fun s d hsd => by rw [← hsd.2.1]; exact hsd.2.2.1

/-- The targeted areas of the created points add up to the total area. -/
theorem initialPoints_sum {ι : Type} (E : Env ι) (n : Nat) (T : ℚ) (fuel : Nat)
    (data : List ι) (sites : List (Site ι)) (hsum : (clampedWeights E data).sum ≠ 0)
    (h : initialPoints E n T fuel data = .ok sites) :
    (sites.map fun s => s.targetedArea).sum = T := by
  have hmap : (sites.map fun s => s.targetedArea) =
      (clampedWeights E data).map fun w => T * w / (clampedWeights E data).sum :=
    map_eq_of_forall₂ _ (initialPoints_targetedArea E n T fuel data sites h)
  rw [hmap, sum_map_scaled, mul_div_assoc, div_self hsum, mul_one]

/-- C1: for a non-empty item list whose clamped weights have a non-zero sum, the
targeted areas given to the sites by `initialize` and `createTreemapPoints` add up
to `totalArea`, the absolute signed area of the clip polygon, the targeted area of
each site being `totalArea * clampedWeight / (sum of the clamped weights)` with
`clampedWeight = max(weight(item), maxWeight*minWeightRatio)`. -/
theorem targetedArea_sum_eq_totalArea {ι : Type} (E : Env ι) (fuel : Nat) (data : List ι)
    (sites : List (Site ι)) (hne : data ≠ []) (hsum : (clampedWeights E data).sum ≠ 0)
    (h : initialPoints E data.length (totalAreaOf E) fuel data = .ok sites) :
    (sites.map fun s => s.targetedArea).sum = totalAreaOf E ∧
    List.Forall₂ (fun (s : Site ι) (w : ℚ) =>
      s.targetedArea = totalAreaOf E * w / (clampedWeights E data).sum)
      sites (clampedWeights E data) ∧
    ∃ M, maxWeight E data = some M ∧
      clampedWeights E data = data.map fun d => max (E.weight d) (M * E.minWeightRatio) := by
  refine ⟨initialPoints_sum E _ _ fuel data sites hsum h,
    initialPoints_targetedArea E _ _ fuel data sites h, ?_⟩
  obtain ⟨M, hM, _, _⟩ := maxWeight_spec E data hne
  refine ⟨M, hM, ?_⟩
  rw [clampedWeights_eq]
  simp [minAllowedWeight, hM, clampWeight]

theorem targetedArea_sum_eq_totalArea_witness :
    (twoPoints.map fun s => s.targetedArea).sum = totalAreaOf twoEnv :=
  (targetedArea_sum_eq_totalArea twoEnv 1 [1, 1] twoPoints (by simp)
    (by rw [twoEnv_clampedWeights]; norm_num) twoEnv_initialPoints).1

theorem twoEnv_unevenPoints :
    initialPoints twoEnv [(0 : ℚ), 100].length (totalAreaOf twoEnv) 1 [0, 100]
      = .ok unevenPoints := by
  unfold twoEnv
  rw [totalAreaOf_demoEnv]
  simp [initialPoints, createTreemapPoints, extractWeights, minAllowedWeight, maxWeight,
    clampWeight, placePoints, samplePoint, demoEnv, squareClip, minMax, insideSquare, twoDraws,
    unevenPoints]
  norm_num

theorem maxWeight_some_ne_nil {ι : Type} (E : Env ι) (data : List ι) (M : ℚ)
    (hM : maxWeight E data = some M) : data ≠ [] := by
  rintro rfl
  simp [maxWeight] at hM

/-- C9: when the greatest weight `M` and `minWeightRatio` are positive and the clip
polygon has positive area, every site's weight-for-targeting is
`max(weight(item), M*minWeightRatio)`, at least `M*minWeightRatio > 0`, and its
targeted area is positive; for two items of weights 0 and 100 with ratio 0.01 the
first clamped weight is 1 and the first targeted area is `totalArea/101`. -/
theorem clamped_weight_floor {ι : Type} (E : Env ι) (fuel : Nat) (data : List ι)
    (sites : List (Site ι)) (M : ℚ) (hM : maxWeight E data = some M) (hpos : 0 < M)
    (hr : 0 < E.minWeightRatio) (hT : 0 < totalAreaOf E)
    (h : initialPoints E data.length (totalAreaOf E) fuel data = .ok sites) :
    ((∀ d ∈ data, E.weight d ≤ M) ∧ ∃ d ∈ data, E.weight d = M) ∧
    List.Forall₂ (fun (s : Site ι) (d : ι) =>
      s.data.weight = max (E.weight d) (M * E.minWeightRatio) ∧
      M * E.minWeightRatio ≤ s.data.weight ∧ 0 < M * E.minWeightRatio ∧
      0 < s.targetedArea) sites data ∧
    (∀ a b, data = [a, b] → E.weight a = 0 → E.weight b = 100 → E.minWeightRatio = 1 / 100 →
      ∃ sa sb, sites = [sa, sb] ∧ sa.data.weight = 1 ∧
        sa.targetedArea = totalAreaOf E / 101) := by
  have hne := maxWeight_some_ne_nil E data M hM
  have hspec := initialPoints_spec E data.length (totalAreaOf E) fuel data sites h
  have hmr : 0 < M * E.minWeightRatio := mul_pos hpos hr
  have hcw : clampedWeights E data = data.map fun d => max (E.weight d) (M * E.minWeightRatio) := by
    rw [clampedWeights_eq]
    simp [minAllowedWeight, hM, clampWeight]
  have hW : 0 < (clampedWeights E data).sum := by
    apply List.sum_pos
    · intro w hw
      rw [hcw, List.mem_map] at hw
      obtain ⟨d, _, rfl⟩ := hw
      exact lt_of_lt_of_le hmr (le_max_right _ _)
    · rw [hcw]
      simpa using hne
  have hmin : minAllowedWeight E data = some (M * E.minWeightRatio) := by
    simp [minAllowedWeight, hM]
  refine ⟨?_, ?_, ?_⟩
  · obtain ⟨M1, hM1, hall, hex⟩ := maxWeight_spec E data hne
    rw [hM] at hM1
    cases hM1
    exact ⟨hall, hex⟩
  · refine hspec.imp fun s d hsd => ?_
    obtain ⟨_, hw, ht, _⟩ := hsd
    rw [hmin] at hw
    have hw1 : s.data.weight = max (E.weight d) (M * E.minWeightRatio) := hw
    refine ⟨hw1, ?_, hmr, ?_⟩
    · rw [hw1]; exact le_max_right _ _
    · rw [ht]
      have : 0 < s.data.weight := by rw [hw1]; exact lt_of_lt_of_le hmr (le_max_right _ _)
      exact div_pos (mul_pos hT this) hW
  · intro a b hdata ha hb hr1
    subst hdata
    have hM100 : M = 100 := by
      simp [maxWeight, ha, hb] at hM
      exact hM.symm
    have hsum : (clampedWeights E [a, b]).sum = 101 := by
      rw [hcw]; simp [ha, hb, hr1, hM100]; norm_num
    cases hspec with
    | cons hsa hrest =>
      cases hrest with
      | cons hsb hnil =>
        cases hnil
        rename_i sa sb
        refine ⟨sa, sb, rfl, ?_, ?_⟩
        · have := hsa.2.1
          rw [hmin] at this
          simp [clampWeight, ha, hr1, hM100] at this
          exact this
        · have hw := hsa.2.1
          rw [hmin] at hw
          simp [clampWeight, ha, hr1, hM100] at hw
          have ht := hsa.2.2.1
          rw [hsum, hw] at ht
          rw [ht]; norm_num

theorem clamped_weight_floor_witness :
    ∃ sa sb, unevenPoints = [sa, sb] ∧ sa.data.weight = 1 ∧
      sa.targetedArea = totalAreaOf twoEnv / 101 :=
  (clamped_weight_floor twoEnv 1 [0, 100] unevenPoints 100
    (by simp [maxWeight, twoEnv, demoEnv]) (by norm_num) (by simp [twoEnv, demoEnv])
    (by unfold twoEnv; rw [totalAreaOf_demoEnv]; norm_num) twoEnv_unevenPoints).2.2
    0 100 rfl rfl rfl rfl

/-! ## Facts about the overweight correctors -/

theorem mem_scanPairs (n i j : Nat) : (i, j) ∈ scanPairs n ↔ i < j ∧ j < n := by
  simp only [scanPairs, List.mem_flatMap, List.mem_range, List.mem_map, List.mem_range',
    Prod.mk.injEq]
  constructor
  · rintro ⟨a, ha, b, ⟨k, hk, rfl⟩, rfl, rfl⟩
    omega
  · rintro ⟨hij, hjn⟩
    exact ⟨i, by omega, j, ⟨j - (i + 1), by omega, by omega⟩, rfl, rfl⟩

theorem squaredDistance_comm {ι : Type} (a b : Site ι) :
    squaredDistance a b = squaredDistance b a := by
  simp only [squaredDistance, sqr]; ring

theorem squaredDistance_self {ι : Type} (a : Site ι) : squaredDistance a a = 0 := by
  simp [squaredDistance, sqr]

theorem weightest_sub_lightest {ι : Type} (a b : Site ι) :
    (weightest a b).weight - (lightest a b).weight = |a.weight - b.weight| := by
  unfold weightest lightest
  split
  · rename_i h
    rw [abs_of_pos (sub_pos.2 h)]
  · rename_i h
    rw [abs_of_nonpos (sub_nonpos.2 (not_lt.1 h))]; ring

theorem overweighted_eq_false_iff {ι : Type} (a b : Site ι) :
    overweighted a b = false ↔ |a.weight - b.weight| ≤ squaredDistance a b := by
  simp [overweighted, weightest_sub_lightest]

theorem overweighted_eq_true_iff {ι : Type} (a b : Site ι) :
    overweighted a b = true ↔ squaredDistance a b < |a.weight - b.weight| := by
  simp [overweighted, weightest_sub_lightest]

theorem findOverweighted_none {ι : Type} (tps : List (Site ι)) :
    ∀ ps : List (Nat × Nat), findOverweighted tps ps = .ok none →
      ∀ i j, (i, j) ∈ ps → ∃ tpi tpj, tps[i]? = some tpi ∧ tps[j]? = some tpj ∧
        overweighted tpi tpj = false := by
  intro ps
  induction ps with
  | nil => intro _ i j hij; cases hij
  | cons p ps ih =>
    obtain ⟨a, b⟩ := p
    intro h i j hij
    simp only [findOverweighted] at h
    split at h
    · rename_i tpa tpb ha hb
      split at h
      · cases h
      · rename_i hov
        rcases List.mem_cons.1 hij with heq | hmem
        · cases heq
          exact ⟨tpa, tpb, ha, hb, by simpa using hov⟩
        · exact ih h i j hmem
    · cases h

theorem findOverweighted_some {ι : Type} (tps : List (Site ι)) (i j : Nat) :
    ∀ ps : List (Nat × Nat), findOverweighted tps ps = .ok (some (i, j)) →
      (i, j) ∈ ps ∧ ∃ tpi tpj, tps[i]? = some tpi ∧ tps[j]? = some tpj ∧
        overweighted tpi tpj = true := by
  intro ps
  induction ps with
  | nil => intro h; simp [findOverweighted] at h
  | cons p ps ih =>
    obtain ⟨a, b⟩ := p
    intro h
    simp only [findOverweighted] at h
    split at h
    · rename_i tpa tpb ha hb
      split at h
      · rename_i hov
        simp only [Except.ok.injEq, Option.some.injEq, Prod.mk.injEq] at h
        obtain ⟨rfl, rfl⟩ := h
        exact ⟨List.mem_cons_self _ _, tpa, tpb, ha, hb, hov⟩
      · obtain ⟨hmem, hex⟩ := ih h
        exact ⟨List.mem_cons_of_mem _ hmem, hex⟩
    · cases h

theorem findOverweighted_ne_error {ι : Type} (tps : List (Site ι)) (e : Fault) :
    ∀ ps : List (Nat × Nat), (∀ i j, (i, j) ∈ ps → i < tps.length ∧ j < tps.length) →
      findOverweighted tps ps ≠ .error e := by
  intro ps
  induction ps with
  | nil => intro _ h; cases h
  | cons p ps ih =>
    obtain ⟨a, b⟩ := p
    intro hb h
    obtain ⟨ha1, hb1⟩ := hb a b (List.mem_cons_self _ _)
    simp only [findOverweighted, List.getElem?_eq_getElem ha1, List.getElem?_eq_getElem hb1] at h
    split at h
    · cases h
    · exact ih (fun i j hij => hb i j (List.mem_cons_of_mem _ hij)) h

theorem fix0_length {ι : Type} (tps : List (Site ι)) (i j : Nat) :
    (fix0 tps i j).length = tps.length := by
  unfold fix0
  split
  · dsimp only; split <;> simp
  · rfl

theorem fix1_length {ι : Type} (tps : List (Site ι)) (i j : Nat) :
    (fix1 tps i j).length = tps.length := by
  unfold fix1
  split
  · dsimp only; split <;> simp
  · rfl

theorem handleOverweighted0_scan {ι : Type} (n : Nat) :
    ∀ (fuel : Nat) (tps out : List (Site ι)), handleOverweighted0 n fuel tps = .ok out →
      out.length = tps.length ∧ findOverweighted out (scanPairs n) = .ok none := by
  intro fuel
  induction fuel with
  | zero => intro tps out h; simp [handleOverweighted0] at h
  | succ fuel ih =>
    intro tps out h
    simp only [handleOverweighted0] at h
    split at h
    · cases h
    · rename_i hscan
      cases h
      exact ⟨rfl, hscan⟩
    · obtain ⟨hl, hs⟩ := ih _ out h
      exact ⟨by rw [hl, fix0_length], hs⟩

theorem handleOverweighted1_scan {ι : Type} (n : Nat) :
    ∀ (fuel : Nat) (tps out : List (Site ι)), handleOverweighted1 n fuel tps = .ok out →
      out.length = tps.length ∧ findOverweighted out (scanPairs n) = .ok none := by
  intro fuel
  induction fuel with
  | zero => intro tps out h; simp [handleOverweighted1] at h
  | succ fuel ih =>
    intro tps out h
    simp only [handleOverweighted1] at h
    split at h
    · cases h
    · rename_i hscan
      cases h
      exact ⟨rfl, hscan⟩
    · obtain ⟨hl, hs⟩ := ih _ out h
      exact ⟨by rw [hl, fix1_length], hs⟩

/-- A list on which a full scan finds no overweighted pair satisfies the structural
condition at every pair of indices. -/
theorem scan_none_all_pairs {ι : Type} (n : Nat) (out : List (Site ι)) (hlen : out.length = n)
    (hscan : findOverweighted out (scanPairs n) = .ok none) :
    ∀ (i j : Nat) (si sj : Site ι), out[i]? = some si → out[j]? = some sj →
      |si.weight - sj.weight| ≤ squaredDistance si sj := by
  have key : ∀ (i j : Nat) (si sj : Site ι), i < j → out[i]? = some si → out[j]? = some sj →
      |si.weight - sj.weight| ≤ squaredDistance si sj := by
    intro i j si sj hij hi hj
    have hjn : j < n := by
      rw [← hlen]
      exact (List.getElem?_eq_some_iff.1 hj).1
    obtain ⟨tpi, tpj, hi1, hj1, hov⟩ :=
      findOverweighted_none out _ hscan i j ((mem_scanPairs n i j).2 ⟨hij, hjn⟩)
    rw [hi] at hi1; rw [hj] at hj1
    cases hi1; cases hj1
    exact (overweighted_eq_false_iff _ _).1 hov
  intro i j si sj hi hj
  rcases Nat.lt_trichotomy i j with h | h | h
  · exact key i j si sj h hi hj
  · subst h
    rw [hi] at hj; cases hj
    simp [squaredDistance_self]
  · rw [abs_sub_comm, squaredDistance_comm]
    exact key j i sj si h hj hi

theorem squaredDistance_nonneg {ι : Type} (a b : Site ι) : 0 ≤ squaredDistance a b := by
  simp only [squaredDistance, sqr]; positivity

theorem squaredDistance_weight_irrel {ι : Type} (a b : Site ι) (w : ℚ) :
    squaredDistance { a with weight := w } b = squaredDistance a b ∧
    squaredDistance b { a with weight := w } = squaredDistance b a :=
  ⟨rfl, rfl⟩

/-- What a fix of `handleOverweighted1` does: the lighter site `sk` of the pair gets
the weight `heavier - dist² + epsilon`, nothing else changes. -/
theorem fix1_spec {ι : Type} (tps : List (Site ι)) (i j : Nat) (tpi tpj : Site ι)
    (hi : tps[i]? = some tpi) (hj : tps[j]? = some tpj) (hov : overweighted tpi tpj = true) :
    ∃ (k m : Nat) (sk sm : Site ι), ((k = i ∧ m = j) ∨ (k = j ∧ m = i)) ∧
      tps[k]? = some sk ∧ tps[m]? = some sm ∧
      squaredDistance sk sm < sm.weight - sk.weight ∧
      fix1 tps i j =
        tps.set k { sk with weight := sm.weight - squaredDistance sk sm + epsilon } := by
  have hov1 := (overweighted_eq_true_iff _ _).1 hov
  by_cases hgt : tpi.weight > tpj.weight
  · refine ⟨j, i, tpj, tpi, Or.inr ⟨rfl, rfl⟩, hj, hi, ?_, ?_⟩
    · rw [abs_of_pos (sub_pos.2 hgt)] at hov1
      rw [squaredDistance_comm]; exact hov1
    · simp only [fix1, hi, hj, hgt, if_true, weightest, lightest]
      congr 2
      rw [squaredDistance_comm tpj tpi]; ring
  · refine ⟨i, j, tpi, tpj, Or.inl ⟨rfl, rfl⟩, hi, hj, ?_, ?_⟩
    · rw [abs_of_nonpos (sub_nonpos.2 (not_lt.1 hgt))] at hov1
      linarith
    · simp only [fix1, hi, hj, hgt, if_false, weightest, lightest]
      congr 2
      ring

theorem sum_slack_set {ι : Type} (B : ℚ) (tps : List (Site ι)) (k : Nat) (sk s1 : Site ι)
    (hk : tps[k]? = some sk) :
    ((tps.set k s1).map fun s => B - s.weight).sum =
      (tps.map fun s => B - s.weight).sum - (s1.weight - sk.weight) := by
  obtain ⟨hlt, hget⟩ := List.getElem?_eq_some_iff.1 hk
  rw [List.map_set, List.sum_set']
  simp only [List.length_map, hlt, dite_true, List.getElem_map, hget]
  ring

theorem raiseLight_fuel_bound {ι : Type} (n : Nat) (B : ℚ) :
    ∀ (k : Nat) (tps : List (Site ι)), tps.length = n →
      (∀ (a b : Nat) (sa sb : Site ι), a ≠ b → tps[a]? = some sa → tps[b]? = some sb →
        epsilon ≤ squaredDistance sa sb) →
      (∀ s ∈ tps, s.weight ≤ B) →
      (tps.map fun s => B - s.weight).sum < k →
      ∃ out, handleOverweighted1 n (k + 1) tps = .ok out := by
  intro k
  induction k with
  | zero =>
    intro tps _ _ hB hsum
    exfalso
    have : 0 ≤ (tps.map fun s => B - s.weight).sum := by
      apply List.sum_nonneg
      intro x hx
      obtain ⟨s, hs, rfl⟩ := List.mem_map.1 hx
      exact sub_nonneg.2 (hB s hs)
    simp only [Nat.cast_zero] at hsum
    linarith
  | succ k ih =>
    intro tps hlen hsep hB hsum
    rw [handleOverweighted1]
    cases hscan : findOverweighted tps (scanPairs n) with
    | error e =>
      exfalso
      refine findOverweighted_ne_error tps e _ ?_ hscan
      intro i j hij
      have := (mem_scanPairs n i j).1 hij
      omega
    | ok r =>
      cases r with
      | none => exact ⟨tps, rfl⟩
      | some p =>
        obtain ⟨i, j⟩ := p
        obtain ⟨hmem, tpi, tpj, hi, hj, hov⟩ := findOverweighted_some tps i j _ hscan
        have hij := (mem_scanPairs n i j).1 hmem
        obtain ⟨a, b, sa, sb, hab, ha, hb, hlt, hfix⟩ := fix1_spec tps i j tpi tpj hi hj hov
        have hne : a ≠ b := by rcases hab with ⟨rfl, rfl⟩ | ⟨rfl, rfl⟩ <;> omega
        have hd : epsilon ≤ squaredDistance sa sb := hsep a b sa sb hne ha hb
        have hsbB : sb.weight ≤ B :=
          hB sb (List.getElem?_mem hb)
        simp only
        rw [hfix]
        apply ih
        · simpa using hlen
        · intro c d sc sd hcd hc hdd
          rw [List.getElem?_set] at hc hdd
          by_cases hac : a = c
          · rw [if_pos hac] at hc
            split at hc
            · cases hc
              rw [if_neg (by omega)] at hdd
              exact (squaredDistance_weight_irrel sa sd _).1 ▸ hsep a d sa sd (by omega) ha hdd
            · cases hc
          · rw [if_neg hac] at hc
            by_cases had : a = d
            · rw [if_pos had] at hdd
              split at hdd
              · cases hdd
                exact (squaredDistance_weight_irrel sa sc _).2 ▸ hsep c a sc sa (by omega) hc ha
              · cases hdd
            · rw [if_neg had] at hdd
              exact hsep c d sc sd hcd hc hdd
        · intro s hs
          rcases List.mem_or_eq_of_mem_set hs with h | h
          · exact hB s h
          · rw [h]
            show sb.weight - squaredDistance sa sb + epsilon ≤ B
            linarith
        · rw [sum_slack_set B tps a sa _ ha]
          show (tps.map fun s => B - s.weight).sum -
            (sb.weight - squaredDistance sa sb + epsilon - sa.weight) < (k : ℚ)
          have he : epsilon = 1 := rfl
          push_cast at hsum
          linarith

theorem exists_weight_bound {ι : Type} (tps : List (Site ι)) :
    ∃ B : ℚ, ∀ s ∈ tps, s.weight ≤ B := by
  induction tps with
  | nil => exact ⟨0, by simp⟩
  | cons t ts ih =>
    obtain ⟨B, hB⟩ := ih
    refine ⟨max t.weight B, ?_⟩
    intro s hs
    rcases List.mem_cons.1 hs with h | h
    · rw [h]; exact le_max_left _ _
    · exact le_trans (hB s h) (le_max_right _ _)

theorem scanPairs_two : scanPairs 2 = [(0, 1)] := by decide

theorem farPoints_raised : handleOverweighted1 2 2 farPoints = .ok farPointsRaised := by
  simp [handleOverweighted1, scanPairs_two, findOverweighted, overweighted, weightest, lightest,
    squaredDistance, sqr, fix1, epsilon, farPoints, farPointsRaised, heavyPoint, raisedPoint]
  norm_num

theorem farPoints_separated (a b : Nat) (sa sb : Site ℚ) (hab : a ≠ b)
    (ha : farPoints[a]? = some sa) (hb : farPoints[b]? = some sb) :
    epsilon ≤ squaredDistance sa sb := by
  rcases a with _ | _ | a <;> rcases b with _ | _ | b <;>
    simp [farPoints] at ha hb hab <;> subst ha <;> subst hb <;>
    norm_num [squaredDistance, sqr, epsilon]

/-- C2: when `handleOverweighted0` or `handleOverweighted1` returns on a list of
`siteCount` sites, every pair of sites of the returned list satisfies
`squaredDistance >= |weight_i - weight_j|`. -/
theorem corrector_pairs_separated {ι : Type} (n fuel : Nat) (tps out : List (Site ι))
    (hlen : tps.length = n)
    (h : handleOverweighted0 n fuel tps = .ok out ∨ handleOverweighted1 n fuel tps = .ok out) :
    ∀ (i j : Nat) (si sj : Site ι), out[i]? = some si → out[j]? = some sj →
      squaredDistance si sj ≥ |si.weight - sj.weight| := by
  have hs : out.length = tps.length ∧ findOverweighted out (scanPairs n) = .ok none := by
    rcases h with h | h
    · exact handleOverweighted0_scan n fuel tps out h
    · exact handleOverweighted1_scan n fuel tps out h
  exact scan_none_all_pairs n out (hs.1.trans hlen) hs.2

theorem corrector_pairs_separated_witness :
    handleOverweighted1 2 2 farPoints = .ok farPointsRaised ∧
    squaredDistance heavyPoint raisedPoint ≥ |heavyPoint.weight - raisedPoint.weight| :=
  ⟨farPoints_raised,
    corrector_pairs_separated 2 2 farPoints farPointsRaised rfl (Or.inr farPoints_raised) 0 1
      heavyPoint raisedPoint rfl rfl⟩

theorem coincident_loops (fuel : Nat) :
    ∀ a b : Site ℚ, a.x = b.x → a.y = b.y → a.weight ≠ b.weight →
      handleOverweighted1 2 fuel [a, b] = .error .outOfFuel := by
  induction fuel with
  | zero => intro a b _ _ _; rfl
  | succ fuel ih =>
    intro a b hx hy hw
    have hd : squaredDistance a b = 0 := by simp [squaredDistance, sqr, hx, hy]
    have hov : overweighted a b = true := by
      rw [overweighted_eq_true_iff, hd]
      exact abs_pos.2 (sub_ne_zero.2 hw)
    have hscan : findOverweighted [a, b] (scanPairs 2) = .ok (some (0, 1)) := by
      simp [scanPairs_two, findOverweighted, hov]
    rw [handleOverweighted1, hscan]
    simp only
    by_cases hgt : a.weight > b.weight
    · have : fix1 [a, b] 0 1 =
          [a, { b with weight := b.weight + (a.weight - b.weight - squaredDistance a b + epsilon) }] := by
        simp [fix1, hgt, weightest, lightest]
      rw [this]
      refine ih _ _ hx hy ?_
      show a.weight ≠ b.weight + (a.weight - b.weight - squaredDistance a b + epsilon)
      rw [hd]
      intro hc
      have he : epsilon = 1 := rfl
      linarith
    · have : fix1 [a, b] 0 1 =
          [{ a with weight := a.weight + (b.weight - a.weight - squaredDistance a b + epsilon) }, b] := by
        simp [fix1, hgt, weightest, lightest]
      rw [this]
      refine ih _ _ hx hy ?_
      show a.weight + (b.weight - a.weight - squaredDistance a b + epsilon) ≠ b.weight
      rw [hd]
      intro hc
      have he : epsilon = 1 := rfl
      linarith

/-- C3, as stated, fails: on two sites at the same position with weights 2 and 1 the
loop of `handleOverweighted1` returns for no number of passes. -/
theorem raise_light_loops_on_coincident :
    ¬ ∃ (fuel : Nat) (out : List (Site ℚ)),
      handleOverweighted1 2 fuel coincidentPoints = .ok out := by
  rintro ⟨fuel, out, h⟩
  have hloop := coincident_loops fuel
    { index := 0, targetedArea := 50, data := { index := 0, weight := 1, originalData := 1 },
      x := 0, y := 0, weight := 2 }
    { index := 1, targetedArea := 50, data := { index := 1, weight := 1, originalData := 1 },
      x := 0, y := 0, weight := 1 } rfl rfl (by norm_num)
  rw [coincidentPoints, hloop] at h
  cases h

/-- C3, amended: `handleOverweighted1` stops after finitely many passes, in a state
where a full scan finds no overweighted pair, on every list of `siteCount` sites in
which any two sites are at squared distance at least `epsilon`. -/
theorem raise_light_terminates {ι : Type} (n : Nat) (tps : List (Site ι))
    (hlen : tps.length = n)
    (hsep : ∀ (a b : Nat) (sa sb : Site ι), a ≠ b → tps[a]? = some sa → tps[b]? = some sb →
      epsilon ≤ squaredDistance sa sb) :
    ∃ (fuel : Nat) (out : List (Site ι)), handleOverweighted1 n fuel tps = .ok out ∧
      findOverweighted out (scanPairs n) = .ok none := by
  obtain ⟨B, hB⟩ := exists_weight_bound tps
  obtain ⟨out, hout⟩ := raiseLight_fuel_bound n B
    (⌈(tps.map fun s => B - s.weight).sum⌉₊ + 1) tps hlen hsep hB
    (by push_cast; exact lt_of_le_of_lt (Nat.le_ceil _) (lt_add_one _))
  exact ⟨_, out, hout, (handleOverweighted1_scan n _ tps out hout).2⟩

theorem raise_light_terminates_witness :
    ∃ (fuel : Nat) (out : List (Site ℚ)), handleOverweighted1 2 fuel farPoints = .ok out ∧
      findOverweighted out (scanPairs 2) = .ok none :=
  raise_light_terminates 2 farPoints rfl farPoints_separated

/-! ## Facts about the fitting loop -/

/-- A property that every execution of the loop body carries over holds when the
loop ends, and the loop ends only when its test fails. -/
theorem mainLoop_invariant {ι : Type} (E : Env ι) (n : Nat) (T : ℚ) (fuel : Nat)
    (P : Nat → LoopState ι → Prop)
    (hstep : ∀ i s s1, P i s → s.converged = false → i < E.maxIterationCount →
      loopBody E n T fuel i s = .ok s1 → P (i + 1) s1) :
    ∀ (d i : Nat) (s : LoopState ι) (k : Nat) (r : LoopState ι),
      E.maxIterationCount - i = d → P i s →
      mainLoop E n T fuel i s = .ok (k, r) →
      P k r ∧ (r.converged = true ∨ E.maxIterationCount ≤ k) := by
  intro d
  induction d with
  | zero =>
    intro i s k r hd hP h
    rw [mainLoop] at h
    have hge : i ≥ E.maxIterationCount := by omega
    rw [dif_pos (Or.inr hge)] at h
    cases h
    exact ⟨hP, Or.inr hge⟩
  | succ d ih =>
    intro i s k r hd hP h
    rw [mainLoop] at h
    split at h
    · rename_i hstop
      cases h
      exact ⟨hP, hstop⟩
    · rename_i hgo
      simp only [not_or, ge_iff_le, not_le, Bool.not_eq_true] at hgo
      split at h
      · cases h
      · rename_i s1 hbody
        exact ih (i + 1) s1 k r (by omega) (hstep i s s1 hP hgo.1 hgo.2 hbody) h

theorem loopBody_inv {ι : Type} (E : Env ι) (n : Nat) (T : ℚ) (fuel : Nat) (i : Nat)
    (s s1 : LoopState ι) (hP : LoopInv E n T i s) (hc : s.converged = false)
    (h : loopBody E n T fuel i s = .ok s1) : LoopInv E n T (i + 1) s1 := by
  obtain ⟨hlen, hticks, _, hae, hconv, hold, _⟩ := hP
  unfold loopBody at h
  split at h
  · cases h
  · rename_i polygons _
    split at h
    · cases h
    · rename_i areaError hcomp
      cases h
      refine ⟨by simp [hlen], ?_, by simp, by simp, ?_, ?_, ?_⟩
      · simp only [List.map_append, hticks, List.map_cons, List.map_nil]
        rw [List.range_succ (n := i + 1)]
      · simp
      · intro e he
        simp only [List.dropLast_concat] at he
        by_contra hlt
        have hmem : e ∈ s.errors.dropLast ∨ s.errors.getLast? = some e := by
          rcases List.eq_nil_or_concat s.errors with hnil | ⟨l, a, hla⟩
          · rw [hnil] at he; cases he
          · rw [hla] at he ⊢
            simp only [List.concat_eq_append, List.mem_append, List.mem_singleton] at he
            rcases he with he | he
            · left; simpa using he
            · right; simp [he]
        rcases hmem with hm | hm
        · exact hlt (hold e hm)
        · have : s.converged = true := hconv.2 ⟨e, hae.trans hm, not_le.1 hlt⟩
          rw [hc] at this
          cases this
      · intro e he
        simp only [Option.some.injEq] at he
        rw [← he]; exact hcomp

theorem mainLoop_error {ι : Type} (E : Env ι) (n : Nat) (T : ℚ) (fuel : Nat) (e : Fault) :
    ∀ (d i : Nat) (s : LoopState ι), E.maxIterationCount - i = d →
      mainLoop E n T fuel i s = .error e →
      ∃ (i1 : Nat) (s1 : LoopState ι), i1 < E.maxIterationCount ∧
        loopBody E n T fuel i1 s1 = .error e := by
  intro d
  induction d with
  | zero =>
    intro i s hd h
    rw [mainLoop, dif_pos (Or.inr (by omega))] at h
    cases h
  | succ d ih =>
    intro i s hd h
    rw [mainLoop] at h
    split at h
    · cases h
    · rename_i hgo
      simp only [not_or, ge_iff_le, not_le, Bool.not_eq_true] at hgo
      split at h
      · rename_i e1 hbody
        cases h
        exact ⟨i, s, hgo.2, hbody⟩
      · rename_i s1 hbody
        exact ih (i + 1) s1 (by omega) h

/-- The state in which `_voronoiMap` enters its loop. -/
theorem loopInv_initial {ι : Type} (E : Env ι) (n : Nat) (T : ℚ) (polygons : List (Polygon ι)) :
    LoopInv E n T 0
      { polygons := polygons, converged := false, areaError := none, errors := [],
        ticks := [(polygons, 0)] } := by
  refine ⟨rfl, rfl, rfl, rfl, ?_, ?_, ?_⟩
  · simp
  · intro e he; cases he
  · intro e he; cases he

/-- A returned run, taken apart: the initial cells, the final loop state, and what
the loop guarantees about it. -/
theorem voronoiMap_spec {ι : Type} (E : Env ι) (fuel : Nat) (data : List ι) (out : Output ι)
    (h : voronoiMap E fuel data = .ok out) :
    ∃ (polygons0 : List (Polygon ι)) (s : LoopState ι),
      initialise E data.length (totalAreaOf E) fuel data = .ok polygons0 ∧
      mainLoop E data.length (totalAreaOf E) fuel 0
        { polygons := polygons0, converged := false, areaError := none, errors := [],
          ticks := [(polygons0, 0)] } = .ok (out.iterationCount, s) ∧
      out.polygons = s.polygons ∧
      out.convergenceRatio = s.areaError.map (fun areaError => areaError / totalAreaOf E) ∧
      out.ticks = s.ticks ∧ out.errors = s.errors ∧
      LoopInv E data.length (totalAreaOf E) out.iterationCount s ∧
      out.iterationCount ≤ E.maxIterationCount ∧
      (s.converged = true ∨ E.maxIterationCount ≤ out.iterationCount) := by
  unfold voronoiMap at h
  simp only at h
  split at h
  · cases h
  · rename_i polygons0 hinit
    split at h
    · cases h
    · rename_i k s hloop
      cases h
      have hinv := mainLoop_invariant E data.length (totalAreaOf E) fuel
        (fun i s => LoopInv E data.length (totalAreaOf E) i s ∧ i ≤ E.maxIterationCount)
        (fun i s s1 hP hc hi hb => ⟨loopBody_inv E _ _ fuel i s s1 hP.1 hc hb, hi⟩)
        (E.maxIterationCount - 0) 0 _ k s rfl
        ⟨loopInv_initial E data.length (totalAreaOf E) polygons0, Nat.zero_le _⟩ hloop
      exact ⟨polygons0, s, hinit, hloop, rfl, rfl, rfl, rfl, hinv.1.1, hinv.1.2, hinv.2⟩

theorem twoEnv_wVoronoi : twoEnv.wVoronoi twoPoints = twoCells0 := by
  simp [twoEnv, demoEnv, halfCells, twoPoints, twoCells0]

theorem twoEnv_adapt : adapt twoEnv 2 1 twoCells0 0 = .ok twoCells := by
  norm_num [adapt, adaptPlacements, adaptWeights, adaptedTreemapPoints, handleOverweighted,
    handleOverweighted1, scanPairs_two, findOverweighted, overweighted, weightest, lightest,
    squaredDistance, sqr, movePoint, reweighPoint, clampedAdaptRatio, epsilon, twoEnv, demoEnv,
    halfCells, twoCells0, twoCells, leftCell, vertexMean, shoelaceArea, shoelaceSum]

theorem twoEnv_areaError : computeAreaError twoEnv 2 twoCells = .ok 0 := by
  norm_num [computeAreaError, twoEnv, demoEnv, twoCells, leftCell, shoelaceArea, shoelaceSum]

theorem twoEnv_run : voronoiMap twoEnv 1 [1, 1] = .ok twoOut := by
  unfold voronoiMap
  simp only [initialise, twoEnv_initialPoints, twoEnv_wVoronoi]
  have hT : totalAreaOf twoEnv = 100 := totalAreaOf_demoEnv _ _ _ _
  have hf : twoEnv.flickeringRatio = fun _ _ => 0 := rfl
  have hm : twoEnv.maxIterationCount = 50 := rfl
  have hc : twoEnv.convergenceRatio = 1 / 100 := rfl
  have hbody : loopBody twoEnv 2 100 1 0
      { polygons := twoCells0, converged := false, areaError := none, errors := [],
        ticks := [(twoCells0, 0)] } =
      .ok { polygons := twoCells, converged := true, areaError := some 0, errors := [0],
            ticks := [(twoCells0, 0), (twoCells, 1)] } := by
    simp only [loopBody, hf, twoEnv_adapt, twoEnv_areaError, hc]
    norm_num
  rw [hT, mainLoop, dif_neg (by simp [hm])]
  simp only [List.length_cons, List.length_nil, Nat.zero_add, Nat.reduceAdd, hbody]
  rw [mainLoop, dif_pos (Or.inl rfl)]
  simp [twoOut]

theorem oneEnv_initialise : initialise oneEnv 1 100 1 [1] = .ok oneCells := by
  norm_num [initialise, initialPoints, createTreemapPoints, extractWeights, minAllowedWeight,
    maxWeight, clampWeight, placePoints, samplePoint, oneEnv, demoEnv, squareClip, minMax,
    insideSquare, oneCells]

theorem oneEnv_adapt : adapt oneEnv 1 1 oneCells 0 = .ok oneCells := by
  norm_num [adapt, adaptPlacements, adaptWeights, adaptedTreemapPoints, handleOverweighted,
    handleOverweighted1, scanPairs, findOverweighted, movePoint, reweighPoint,
    clampedAdaptRatio, epsilon, oneEnv, demoEnv, oneCells, vertexMean, shoelaceArea,
    shoelaceSum]

theorem oneEnv_areaError : computeAreaError oneEnv 1 oneCells = .ok 0 := by
  norm_num [computeAreaError, oneEnv, demoEnv, oneCells, shoelaceArea, shoelaceSum]

theorem oneEnv_loopBody (i : Nat) (err : Option ℚ) (errors : List ℚ)
    (ticks : List (List (Polygon ℚ) × Nat)) :
    loopBody oneEnv 1 100 1 i
      { polygons := oneCells, converged := false, areaError := err, errors := errors,
        ticks := ticks } =
    .ok { polygons := oneCells, converged := false, areaError := some 0,
          errors := errors ++ [0], ticks := ticks ++ [(oneCells, i + 1)] } := by
  have hf : oneEnv.flickeringRatio = fun _ _ => 0 := rfl
  have hc : oneEnv.convergenceRatio = 0 := rfl
  simp only [loopBody, hf, oneEnv_adapt, oneEnv_areaError, hc]
  norm_num

theorem oneEnv_run : voronoiMap oneEnv 1 [1] = .ok oneOut := by
  unfold voronoiMap
  have hT : totalAreaOf oneEnv = 100 := totalAreaOf_demoEnv _ _ _ _
  have hm : oneEnv.maxIterationCount = 2 := rfl
  simp only [hT, List.length_cons, List.length_nil, Nat.zero_add, oneEnv_initialise]
  rw [mainLoop, dif_neg (by simp [hm])]
  simp only [oneEnv_loopBody]
  rw [mainLoop, dif_neg (by simp [hm])]
  simp only [oneEnv_loopBody]
  rw [mainLoop, dif_pos (Or.inr (by simp [hm]))]
  simp [oneOut]

theorem foldl_add_eq_sum {α : Type} (f : α → ℚ) (l : List α) (a : ℚ) :
    l.foldl (fun acc p => acc + f p) a = a + (l.map f).sum := by
  induction l generalizing a with
  | nil => simp
  | cons b bs ih => simp [List.foldl_cons, ih, add_assoc]

theorem computeAreaError_ok {ι : Type} (E : Env ι) (n : Nat) (polygons : List (Polygon ι))
    (e : ℚ) (h : computeAreaError E n polygons = .ok e) :
    n ≤ polygons.length ∧ e = cellsAreaError E (polygons.take n) := by
  unfold computeAreaError at h
  split at h
  · cases h
  · rename_i hlen
    cases h
    exact ⟨Nat.le_of_not_lt hlen, by rw [foldl_add_eq_sum, zero_add]; rfl⟩

theorem handleOverweighted_length {ι : Type} (E : Env ι) (n fuel : Nat)
    (tps out : List (Site ι)) (h : handleOverweighted E n fuel tps = .ok out) :
    out.length = tps.length := by
  unfold handleOverweighted at h
  split at h
  · exact (handleOverweighted0_scan n fuel tps out h).1
  · exact (handleOverweighted1_scan n fuel tps out h).1
  · cases h

theorem adaptPlacements_length {ι : Type} (E : Env ι) (n fuel : Nat)
    (polygons : List (Polygon ι)) (f : ℚ) (out : List (Site ι))
    (h : adaptPlacements E n fuel polygons f = .ok out) :
    n ≤ polygons.length ∧ out.length = n := by
  unfold adaptPlacements at h
  simp only at h
  split at h
  · cases h
  · rename_i hlen
    have := handleOverweighted_length E n fuel _ out h
    simp only [List.length_map, List.length_take] at this
    omega

theorem adaptWeights_length {ι : Type} (E : Env ι) (n fuel : Nat)
    (polygons : List (Polygon ι)) (f : ℚ) (out : List (Site ι))
    (h : adaptWeights E n fuel polygons f = .ok out) :
    n ≤ polygons.length ∧ out.length = n := by
  unfold adaptWeights at h
  simp only at h
  split at h
  · cases h
  · rename_i hlen
    have := handleOverweighted_length E n fuel _ out h
    simp only [List.length_map, List.length_take] at this
    omega

/-- With a construction that returns at most one cell per point, the number of cells
stays at most `siteCount` through `adapt`. -/
theorem adapt_length_le {ι : Type} (E : Env ι) (n fuel : Nat) (polygons out : List (Polygon ι))
    (f : ℚ) (horacle : ∀ pts, (E.wVoronoi pts).length ≤ pts.length)
    (hle : polygons.length ≤ n) (h : adapt E n fuel polygons f = .ok out) :
    out.length ≤ n := by
  unfold adapt at h
  split at h
  · cases h
  · rename_i placed hplaced
    simp only at h
    split at h
    · cases h
    · rename_i reweighed hre
      cases h
      have h1 := adaptPlacements_length E n fuel polygons f placed hplaced
      have h2 := adaptWeights_length E n fuel _ f reweighed hre
      have h3 := horacle (adaptedTreemapPoints n placed polygons)
      have h4 := horacle (adaptedTreemapPoints n reweighed
        (E.wVoronoi (adaptedTreemapPoints n placed polygons)))
      simp only [adaptedTreemapPoints, List.length_append, List.length_map,
        List.length_drop] at h3 h4 ⊢
      omega

theorem initialPoints_length {ι : Type} (E : Env ι) (n : Nat) (T : ℚ) (fuel : Nat)
    (data : List ι) (sites : List (Site ι)) (h : initialPoints E n T fuel data = .ok sites) :
    sites.length = data.length :=
  (initialPoints_spec E n T fuel data sites h).length_eq

/-- With a construction that returns at most one cell per point, a returned run has
exactly `siteCount` cells. -/
theorem voronoiMap_polygons_length {ι : Type} (E : Env ι) (fuel : Nat) (data : List ι)
    (out : Output ι) (horacle : ∀ pts, (E.wVoronoi pts).length ≤ pts.length)
    (h : voronoiMap E fuel data = .ok out) : out.polygons.length ≤ data.length := by
  obtain ⟨polygons0, s, hinit, hloop, hpol, _⟩ := voronoiMap_spec E fuel data out h
  have h0 : polygons0.length ≤ data.length := by
    unfold initialise at hinit
    split at hinit
    · cases hinit
    · rename_i pts hpts
      cases hinit
      exact (horacle pts).trans (initialPoints_length E _ _ fuel data pts hpts).le
  have := mainLoop_invariant E data.length (totalAreaOf E) fuel
    (fun _ s => s.polygons.length ≤ data.length)
    (fun i s s1 hP _ _ hb => by
      unfold loopBody at hb
      split at hb
      · cases hb
      · rename_i polygons hadapt
        split at hb
        · cases hb
        · cases hb
          exact adapt_length_le E _ fuel _ polygons _ horacle hP hadapt)
    (E.maxIterationCount - 0) 0 _ _ s rfl h0 hloop
  rw [hpol]; exact this.1

/-- C6: with `maxIterationCount = m >= 1` and `totalArea > 0` the returned
`iterationCount` `k` lies in `1..m`, the area error of every iteration before `k` was
at least `convergenceRatio * totalArea`, and when `k < m` the error of iteration `k`
is below that threshold and the returned `convergenceRatio` is below the configured
one. The error of iteration `j + 1` is `errors[j]`. -/
theorem stops_at_first_converged_iteration {ι : Type} (E : Env ι) (fuel : Nat)
    (data : List ι) (out : Output ι) (hm : 1 ≤ E.maxIterationCount)
    (hT : 0 < totalAreaOf E) (h : voronoiMap E fuel data = .ok out) :
    1 ≤ out.iterationCount ∧ out.iterationCount ≤ E.maxIterationCount ∧
    out.errors.length = out.iterationCount ∧
    (∀ (j : Nat) (e : ℚ), j + 1 < out.iterationCount → out.errors[j]? = some e →
      E.convergenceRatio * totalAreaOf E ≤ e) ∧
    (out.iterationCount < E.maxIterationCount →
      ∃ e, out.errors[out.iterationCount - 1]? = some e ∧
        e < E.convergenceRatio * totalAreaOf E ∧
        out.convergenceRatio = some (e / totalAreaOf E) ∧
        e / totalAreaOf E < E.convergenceRatio) := by
  obtain ⟨_, s, _, _, _, hratio, _, herr, hinv, hle, hstop⟩ := voronoiMap_spec E fuel data out h
  obtain ⟨hlen, _, _, hae, hconv, hold, _⟩ := hinv
  have hlast : s.errors.getLast? = s.errors[out.iterationCount - 1]? := by
    rw [List.getLast?_eq_getElem?, hlen]
  have hconv1 : s.converged = true → ∃ e, out.errors[out.iterationCount - 1]? = some e ∧
      e < E.convergenceRatio * totalAreaOf E ∧
      out.convergenceRatio = some (e / totalAreaOf E) ∧
      e / totalAreaOf E < E.convergenceRatio := by
    intro hc
    obtain ⟨e, he, hlt⟩ := hconv.1 hc
    refine ⟨e, ?_, hlt, ?_, (div_lt_iff₀ hT).2 hlt⟩
    · rw [herr, ← hlast, ← hae, he]
    · rw [hratio, he]; rfl
  refine ⟨?_, hle, by rw [herr]; exact hlen, ?_, ?_⟩
  · rcases hstop with hc | hm1
    · obtain ⟨e, he, _⟩ := hconv1 hc
      by_contra h0
      have hk : out.iterationCount = 0 := by omega
      rw [herr] at he
      have hnil : s.errors = [] := List.length_eq_zero.1 (hlen.trans hk)
      rw [hnil] at he
      simp at he
    · omega
  · intro j e hj he
    apply hold e
    rw [herr] at he
    rw [List.dropLast_eq_take]
    have : (s.errors.take (s.errors.length - 1))[j]? = some e := by
      rw [List.getElem?_take_of_lt (by omega)]
      exact he
    exact List.getElem?_mem this
  · intro hlt
    rcases hstop with hc | hm1
    · exact hconv1 hc
    · omega

theorem stops_at_first_converged_iteration_witness :
    ∃ e, twoOut.errors[twoOut.iterationCount - 1]? = some e ∧
      e < twoEnv.convergenceRatio * totalAreaOf twoEnv ∧
      twoOut.convergenceRatio = some (e / totalAreaOf twoEnv) ∧
      e / totalAreaOf twoEnv < twoEnv.convergenceRatio :=
  (stops_at_first_converged_iteration twoEnv 1 [1, 1] twoOut (by decide)
    (by rw [twoEnv, totalAreaOf_demoEnv]; norm_num) twoEnv_run).2.2.2.2 (by decide)

/-- C7 fails on the code: with `convergenceRatio = 0`, one item and the whole square
as its cell, the area error of iteration 1 equals `convergenceRatio * totalArea`
(both are 0), yet the loop goes on and returns `iterationCount = 2`. -/
theorem no_stop_at_exact_threshold :
    voronoiMap oneEnv 1 [1] = .ok oneOut ∧ oneOut.errors[0]? = some 0 ∧
    oneEnv.convergenceRatio * totalAreaOf oneEnv = 0 ∧
    1 < oneEnv.maxIterationCount ∧ oneOut.iterationCount = 2 :=
  ⟨oneEnv_run, rfl, by simp [oneEnv, demoEnv], by decide, rfl⟩

/-- C8: when at least one iteration may run (`maxIterationCount >= 1`) the returned
`convergenceRatio` is the area error of the first `siteCount` returned cells, each
compared with the targeted area of its own site, divided by `totalArea`; when the
construction returns at most one cell per point these are all the returned cells,
one per site. -/
theorem convergenceRatio_is_error_of_returned_cells {ι : Type} (E : Env ι) (fuel : Nat)
    (data : List ι) (out : Output ι) (hm : 1 ≤ E.maxIterationCount)
    (h : voronoiMap E fuel data = .ok out) :
    out.convergenceRatio =
      some (cellsAreaError E (out.polygons.take data.length) / totalAreaOf E) ∧
    ((∀ pts, (E.wVoronoi pts).length ≤ pts.length) →
      out.polygons.length = data.length ∧
      out.convergenceRatio = some (cellsAreaError E out.polygons / totalAreaOf E)) := by
  obtain ⟨_, s, _, _, hpol, hratio, _, _, hinv, _, hstop⟩ := voronoiMap_spec E fuel data out h
  obtain ⟨hlen, _, _, hae, hconv, _, hcomp⟩ := hinv
  have hsome : ∃ e, s.areaError = some e := by
    rcases hstop with hc | hm1
    · obtain ⟨e, he, _⟩ := hconv.1 hc
      exact ⟨e, he⟩
    · have hne : s.errors ≠ [] := by
        intro hnil
        rw [hnil] at hlen
        simp at hlen
        omega
      obtain ⟨l, a, hla⟩ := (List.eq_nil_or_concat s.errors).resolve_left hne
      exact ⟨a, by rw [hae, hla]; simp⟩
  obtain ⟨e, he⟩ := hsome
  obtain ⟨hge, hval⟩ := computeAreaError_ok E _ _ e (hcomp e he)
  have h1 : out.convergenceRatio =
      some (cellsAreaError E (out.polygons.take data.length) / totalAreaOf E) := by
    rw [hratio, he, hpol, hval]; rfl
  refine ⟨h1, fun horacle => ?_⟩
  have hle := voronoiMap_polygons_length E fuel data out horacle h
  have hlen2 : out.polygons.length = data.length := by rw [hpol] at hle ⊢; omega
  refine ⟨hlen2, ?_⟩
  rw [h1, ← hlen2, List.take_length]

theorem twoEnv_oracle_length (pts : List (Site ℚ)) :
    (twoEnv.wVoronoi pts).length ≤ pts.length := by
  simp [twoEnv, demoEnv]

theorem convergenceRatio_is_error_of_returned_cells_witness :
    twoOut.polygons.length = [(1 : ℚ), 1].length ∧
    twoOut.convergenceRatio =
      some (cellsAreaError twoEnv twoOut.polygons / totalAreaOf twoEnv) :=
  (convergenceRatio_is_error_of_returned_cells twoEnv 1 [1, 1] twoOut (by decide)
    twoEnv_run).2 twoEnv_oracle_length

/-! ## What the correctors and the adaptation steps leave unchanged -/

theorem sameButWeight_refl {ι : Type} (a : Site ι) : sameButWeight a a := rfl

theorem sameButWeight_trans {ι : Type} {a b c : Site ι} (hab : sameButWeight a b)
    (hbc : sameButWeight b c) : sameButWeight a c := by
  unfold sameButWeight at *
  rw [hab, hbc]

theorem sameButWeight_targetedArea {ι : Type} {a b : Site ι} (h : sameButWeight a b) :
    a.targetedArea = b.targetedArea := by
  unfold sameButWeight at h
  rw [h]

theorem forall₂_refl_of {α : Type} {R : α → α → Prop} (hrefl : ∀ a, R a a) (l : List α) :
    List.Forall₂ R l l := by
  induction l with
  | nil => exact List.Forall₂.nil
  | cons a l ih => exact List.Forall₂.cons (hrefl a) ih

theorem forall₂_set_left {α : Type} {R : α → α → Prop} (hrefl : ∀ a, R a a) :
    ∀ (l : List α) (k : Nat) (sk s1 : α), l[k]? = some sk → R s1 sk →
      List.Forall₂ R (l.set k s1) l := by
  intro l
  induction l with
  | nil => intro k sk s1 hk; simp at hk
  | cons a l ih =>
    intro k sk s1 hk hR
    cases k with
    | zero =>
      simp only [List.getElem?_cons_zero, Option.some.injEq] at hk
      subst hk
      exact List.Forall₂.cons hR (forall₂_refl_of hrefl l)
    | succ k =>
      simp only [List.getElem?_cons_succ] at hk
      exact List.Forall₂.cons (hrefl a) (ih k sk s1 hk hR)

/-- What a fix of `handleOverweighted0` does: the heavier site of the pair gets the
weight `max(dist² + lighter/2, epsilon)`, nothing else changes. -/
theorem fix0_spec {ι : Type} (tps : List (Site ι)) (i j : Nat) (tpi tpj : Site ι)
    (hi : tps[i]? = some tpi) (hj : tps[j]? = some tpj) :
    ∃ (k : Nat) (sk : Site ι) (w : ℚ), tps[k]? = some sk ∧ epsilon ≤ w ∧
      fix0 tps i j = tps.set k { sk with weight := w } := by
  by_cases hgt : tpi.weight > tpj.weight
  · exact ⟨i, tpi, max (squaredDistance tpi tpj + (lightest tpi tpj).weight / 2) epsilon, hi,
      le_max_right _ _, by simp only [fix0, hi, hj, hgt, if_true]⟩
  · exact ⟨j, tpj, max (squaredDistance tpi tpj + (lightest tpi tpj).weight / 2) epsilon, hj,
      le_max_right _ _, by simp only [fix0, hi, hj, hgt, if_false]⟩

/-- The list returned by `handleOverweighted0` against the list it was given: the
same sites in the same order, up to weights, a changed weight being at least
`epsilon`. -/
theorem handleOverweighted0_rel {ι : Type} (n : Nat) :
    ∀ (fuel : Nat) (tps out : List (Site ι)), handleOverweighted0 n fuel tps = .ok out →
      List.Forall₂ (fun o t => sameButWeight o t ∧ (o.weight = t.weight ∨ epsilon ≤ o.weight))
        out tps := by
  intro fuel
  induction fuel with
  | zero => intro tps out h; simp [handleOverweighted0] at h
  | succ fuel ih =>
    intro tps out h
    simp only [handleOverweighted0] at h
    split at h
    · cases h
    · cases h
      exact forall₂_refl_of (fun a => ⟨rfl, Or.inl rfl⟩) _
    · rename_i i j hscan
      obtain ⟨_, tpi, tpj, hi, hj, _⟩ := findOverweighted_some tps i j _ hscan
      obtain ⟨k, sk, w, hk, hw, hfix⟩ := fix0_spec tps i j tpi tpj hi hj
      have h1 := ih _ out h
      rw [hfix] at h1
      have h2 : List.Forall₂
          (fun o t => sameButWeight o t ∧ (o.weight = t.weight ∨ epsilon ≤ o.weight))
          (tps.set k { sk with weight := w }) tps :=
        forall₂_set_left (fun a => ⟨rfl, Or.inl rfl⟩) tps k sk _ hk ⟨rfl, Or.inr hw⟩
      refine forall₂_chain ?_ h1 h2
      rintro a b c ⟨hab, hw1⟩ ⟨hbc, hw2⟩
      refine ⟨sameButWeight_trans hab hbc, ?_⟩
      rcases hw1 with hw1 | hw1
      · rcases hw2 with hw2 | hw2
        · exact Or.inl (hw1.trans hw2)
        · exact Or.inr (hw1 ▸ hw2)
      · exact Or.inr hw1

/-- The list returned by `handleOverweighted1` against the list it was given: the
same sites in the same order, up to weights, and no weight was lowered. -/
theorem handleOverweighted1_rel {ι : Type} (n : Nat) :
    ∀ (fuel : Nat) (tps out : List (Site ι)), handleOverweighted1 n fuel tps = .ok out →
      List.Forall₂ (fun o t => sameButWeight o t ∧ t.weight ≤ o.weight) out tps := by
  intro fuel
  induction fuel with
  | zero => intro tps out h; simp [handleOverweighted1] at h
  | succ fuel ih =>
    intro tps out h
    simp only [handleOverweighted1] at h
    split at h
    · cases h
    · cases h
      exact forall₂_refl_of (fun a => ⟨rfl, le_refl _⟩) _
    · rename_i i j hscan
      obtain ⟨_, tpi, tpj, hi, hj, hov⟩ := findOverweighted_some tps i j _ hscan
      obtain ⟨k, m, sk, sm, _, hk, _, hlt, hfix⟩ := fix1_spec tps i j tpi tpj hi hj hov
      have h1 := ih _ out h
      rw [hfix] at h1
      have h2 : List.Forall₂ (fun o t => sameButWeight o t ∧ t.weight ≤ o.weight)
          (tps.set k { sk with weight := sm.weight - squaredDistance sk sm + epsilon }) tps := by
        refine forall₂_set_left (fun a => ⟨rfl, le_refl _⟩) tps k sk _ hk ⟨rfl, ?_⟩
        show sk.weight ≤ sm.weight - squaredDistance sk sm + epsilon
        have he : epsilon = 1 := rfl
        linarith
      refine forall₂_chain ?_ h1 h2
      rintro a b c ⟨hab, hw1⟩ ⟨hbc, hw2⟩
      exact ⟨sameButWeight_trans hab hbc, le_trans hw2 hw1⟩

/-- Either corrector returns the sites it was given, in the same order, up to
weights, and a weight that was at least `epsilon` still is. -/
theorem handleOverweighted_rel {ι : Type} (E : Env ι) (n fuel : Nat) (tps out : List (Site ι))
    (h : handleOverweighted E n fuel tps = .ok out) :
    List.Forall₂ (fun o t => sameButWeight o t ∧ (epsilon ≤ t.weight → epsilon ≤ o.weight))
      out tps := by
  unfold handleOverweighted at h
  split at h
  · refine (handleOverweighted0_rel n fuel tps out h).imp ?_
    rintro a b ⟨hab, hw⟩
    refine ⟨hab, fun hb => ?_⟩
    rcases hw with hw | hw
    · rw [hw]; exact hb
    · exact hw
  · refine (handleOverweighted1_rel n fuel tps out h).imp ?_
    rintro a b ⟨hab, hw⟩
    exact ⟨hab, fun hb => le_trans hb hw⟩
  · cases h

theorem adaptPlacements_rel {ι : Type} (E : Env ι) (n fuel : Nat)
    (polygons : List (Polygon ι)) (f : ℚ) (out : List (Site ι))
    (h : adaptPlacements E n fuel polygons f = .ok out) :
    List.Forall₂ (fun (o : Site ι) (p : Polygon ι) =>
      o.targetedArea = p.site.targetedArea ∧ (epsilon ≤ p.site.weight → epsilon ≤ o.weight))
      out (polygons.take n) := by
  unfold adaptPlacements at h
  simp only at h
  split at h
  · cases h
  · have := handleOverweighted_rel E n fuel _ out h
    rw [List.forall₂_map_right_iff] at this
    refine this.imp fun o p hop => ?_
    have h1 := sameButWeight_targetedArea hop.1
    exact ⟨h1, hop.2⟩

theorem adaptWeights_rel {ι : Type} (E : Env ι) (n fuel : Nat)
    (polygons : List (Polygon ι)) (f : ℚ) (out : List (Site ι))
    (h : adaptWeights E n fuel polygons f = .ok out) :
    List.Forall₂ (fun (o : Site ι) (p : Polygon ι) =>
      o.targetedArea = p.site.targetedArea ∧ epsilon ≤ o.weight)
      out (polygons.take n) := by
  unfold adaptWeights at h
  simp only at h
  split at h
  · cases h
  · have := handleOverweighted_rel E n fuel _ out h
    rw [List.forall₂_map_right_iff] at this
    refine this.imp fun o p hop => ?_
    have h1 := sameButWeight_targetedArea hop.1
    exact ⟨h1, hop.2 (le_max_right _ _)⟩

theorem forall₂_map_eq {α β γ : Type} (f : α → γ) (g : β → γ) {l1 : List α} {l2 : List β}
    (h : List.Forall₂ (fun a b => f a = g b) l1 l2) : l1.map f = l2.map g := by
  induction h with
  | nil => rfl
  | cons hab _ ih => simp [hab, ih]

theorem forall₂_left_all {α β : Type} (P : α → Prop) (Q : β → Prop) {R : α → β → Prop}
    (hR : ∀ a b, R a b → Q b → P a) {l1 : List α} {l2 : List β} (h : List.Forall₂ R l1 l2)
    (hQ : ∀ b ∈ l2, Q b) : ∀ a ∈ l1, P a := by
  induction h with
  | nil => intro a ha; cases ha
  | cons hab _ ih =>
    intro a ha
    rcases List.mem_cons.1 ha with h1 | h1
    · rw [h1]; exact hR _ _ hab (hQ _ (List.mem_cons_self _ _))
    · exact ih (fun b hb => hQ b (List.mem_cons_of_mem _ hb)) a h1

/-- After `adaptWeights` every weight is at least `epsilon`. -/
theorem adaptWeights_floor {ι : Type} (E : Env ι) (n fuel : Nat)
    (polygons : List (Polygon ι)) (f : ℚ) (out : List (Site ι))
    (h : adaptWeights E n fuel polygons f = .ok out) : ∀ s ∈ out, epsilon ≤ s.weight :=
  forall₂_left_all (fun s => epsilon ≤ s.weight) (fun _ => True) (fun _ _ hab _ => hab.2)
    (adaptWeights_rel E n fuel polygons f out h) (fun _ _ => trivial)

/-- The step `adaptPlacements` keeps weights that are at least `epsilon` so. -/
theorem adaptPlacements_floor {ι : Type} (E : Env ι) (n fuel : Nat)
    (polygons : List (Polygon ι)) (f : ℚ) (out : List (Site ι))
    (h : adaptPlacements E n fuel polygons f = .ok out)
    (hw : ∀ p ∈ polygons, epsilon ≤ p.site.weight) : ∀ s ∈ out, epsilon ≤ s.weight :=
  forall₂_left_all (fun s => epsilon ≤ s.weight) (fun p => epsilon ≤ p.site.weight)
    (fun _ _ hab hb => hab.2 hb) (adaptPlacements_rel E n fuel polygons f out h)
    (fun p hp => hw p (List.mem_of_mem_take hp))

theorem subperm_map {α β : Type} (f : α → β) {l1 l2 : List α} (h : List.Subperm l1 l2) :
    List.Subperm (l1.map f) (l2.map f) := by
  obtain ⟨l, hperm, hsub⟩ := h
  exact ⟨l.map f, hperm.map f, hsub.map f⟩

/-- The steps of `adapt` when the construction keeps its contract and no more than
`siteCount` cells are given: both adaptation steps act on all the cells. -/
theorem adapt_contract {ι : Type} (E : Env ι) (n fuel : Nat) (polygons out : List (Polygon ι))
    (f : ℚ) (hc : OracleContract E) (hle : polygons.length ≤ n)
    (h : adapt E n fuel polygons f = .ok out) :
    ∃ (placed reweighed : List (Site ι)),
      adaptPlacements E n fuel polygons f = .ok placed ∧
      adaptWeights E n fuel (E.wVoronoi placed) f = .ok reweighed ∧
      out = E.wVoronoi reweighed ∧
      polygons.length = n ∧ placed.length = n ∧ (E.wVoronoi placed).length = n ∧
      reweighed.length = n := by
  unfold adapt at h
  split at h
  · cases h
  · rename_i placed hplaced
    have h1 := adaptPlacements_length E n fuel polygons f placed hplaced
    have hd : adaptedTreemapPoints n placed polygons = placed := by
      simp [adaptedTreemapPoints, List.drop_eq_nil_of_le hle]
    simp only [hd] at h
    split at h
    · cases h
    · rename_i reweighed hre
      have h2 := adaptWeights_length E n fuel _ f reweighed hre
      have h3 : (E.wVoronoi placed).length ≤ n := by
        have := (hc placed).length_le
        simp only [List.length_map] at this
        omega
      have hd2 : adaptedTreemapPoints n reweighed (E.wVoronoi placed) = reweighed := by
        simp [adaptedTreemapPoints, List.drop_eq_nil_of_le h3]
      rw [hd2] at h
      cases h
      exact ⟨placed, reweighed, hplaced, hre, rfl, by omega, h1.2, by omega, h2.2⟩

/-- Under the contract every cell returned by `adapt` carries a weight of at least
`epsilon`. -/
theorem adapt_floor {ι : Type} (E : Env ι) (n fuel : Nat) (polygons out : List (Polygon ι))
    (f : ℚ) (hc : OracleContract E) (hle : polygons.length ≤ n)
    (h : adapt E n fuel polygons f = .ok out) : ∀ p ∈ out, epsilon ≤ p.site.weight := by
  obtain ⟨placed, reweighed, _, hre, hout, _⟩ := adapt_contract E n fuel polygons out f hc hle h
  intro p hp
  have hsub := (hc reweighed).subset
  rw [← hout] at hsub
  exact adaptWeights_floor E n fuel _ f reweighed hre p.site
    (hsub (List.mem_map_of_mem _ hp))

/-- Under the contract the targeted areas carried by the cells stay a part of the
targeted areas of the `siteCount` sites through `adapt`. -/
theorem adapt_targetedArea {ι : Type} (E : Env ι) (n fuel : Nat)
    (polygons out : List (Polygon ι)) (f : ℚ) (L0 : List ℚ) (hc : OracleContract E)
    (hL0 : L0.length = n)
    (hsub : List.Subperm (polygons.map fun p => p.site.targetedArea) L0)
    (h : adapt E n fuel polygons f = .ok out) :
    List.Subperm (out.map fun p => p.site.targetedArea) L0 := by
  have hle : polygons.length ≤ n := by
    have := hsub.length_le
    simp only [List.length_map] at this
    omega
  obtain ⟨placed, reweighed, hplaced, hre, hout, hlen, hplen, h1len, hrlen⟩ :=
    adapt_contract E n fuel polygons out f hc hle h
  have hperm0 : List.Perm (polygons.map fun p => p.site.targetedArea) L0 :=
    hsub.perm_of_length_le (by simp only [List.length_map]; omega)
  have hpl : (placed.map fun s => s.targetedArea) =
      polygons.map fun p => p.site.targetedArea := by
    have := adaptPlacements_rel E n fuel polygons f placed hplaced
    rw [List.take_of_length_le (by omega)] at this
    exact forall₂_map_eq _ _ (this.imp fun _ _ hab => hab.1)
  have hperm1 : List.Perm ((E.wVoronoi placed).map fun p => p.site) placed :=
    (hc placed).perm_of_length_le (by simp only [List.length_map]; omega)
  have hrw : (reweighed.map fun s => s.targetedArea) =
      (E.wVoronoi placed).map fun p => p.site.targetedArea := by
    have := adaptWeights_rel E n fuel _ f reweighed hre
    rw [List.take_of_length_le (by omega)] at this
    exact forall₂_map_eq _ _ (this.imp fun _ _ hab => hab.1)
  have hfin : List.Subperm (out.map fun p => p.site.targetedArea)
      (reweighed.map fun s => s.targetedArea) := by
    have := subperm_map (fun s : Site ι => s.targetedArea) (hc reweighed)
    rw [← hout, List.map_map] at this
    exact this
  have hmid : List.Perm ((E.wVoronoi placed).map fun p => p.site.targetedArea)
      (placed.map fun s => s.targetedArea) := by
    have := hperm1.map (fun s : Site ι => s.targetedArea)
    rw [List.map_map] at this
    exact this
  rw [hrw] at hfin
  rw [hpl] at hmid
  exact hfin.trans (hmid.trans hperm0).subperm

/-! ## Runs under the contract of the construction -/

theorem loopBody_ok {ι : Type} (E : Env ι) (n : Nat) (T : ℚ) (fuel i : Nat)
    (s s1 : LoopState ι) (h : loopBody E n T fuel i s = .ok s1) :
    ∃ e, adapt E n fuel s.polygons (E.flickeringRatio T s.errors) = .ok s1.polygons ∧
      computeAreaError E n s1.polygons = .ok e ∧
      s1.ticks = s.ticks ++ [(s1.polygons, i + 1)] := by
  unfold loopBody at h
  split at h
  · cases h
  · rename_i polygons hadapt
    split at h
    · cases h
    · rename_i e hcomp
      cases h
      exact ⟨e, hadapt, hcomp, rfl⟩

theorem initialise_ok {ι : Type} (E : Env ι) (n : Nat) (T : ℚ) (fuel : Nat) (data : List ι)
    (polygons0 : List (Polygon ι)) (h : initialise E n T fuel data = .ok polygons0) :
    ∃ sites0, initialPoints E n T fuel data = .ok sites0 ∧ polygons0 = E.wVoronoi sites0 := by
  unfold initialise at h
  split at h
  · cases h
  · rename_i pts hpts
    cases h
    exact ⟨pts, hpts, rfl⟩

/-- Under the contract, the cells of a run that returns a convergence ratio carry
the targeted areas of the initial points, each once. -/
theorem voronoiMap_targetedArea {ι : Type} (E : Env ι) (fuel : Nat) (data : List ι)
    (out : Output ι) (r : ℚ) (hc : OracleContract E) (h : voronoiMap E fuel data = .ok out)
    (hr : out.convergenceRatio = some r) :
    ∃ sites0, initialPoints E data.length (totalAreaOf E) fuel data = .ok sites0 ∧
      List.Perm (out.polygons.map fun p => p.site.targetedArea)
        (sites0.map fun s => s.targetedArea) ∧
      out.polygons.length = data.length ∧
      r = cellsAreaError E out.polygons / totalAreaOf E := by
  obtain ⟨polygons0, s, hinit, hloop, hpol, hratio, _, _, hinv, _, _⟩ :=
    voronoiMap_spec E fuel data out h
  obtain ⟨sites0, hsites, hp0⟩ := initialise_ok E _ _ fuel data polygons0 hinit
  have hlen0 : (sites0.map fun s => s.targetedArea).length = data.length := by
    rw [List.length_map]; exact initialPoints_length E _ _ fuel data sites0 hsites
  have h0 : List.Subperm (polygons0.map fun p => p.site.targetedArea)
      (sites0.map fun s => s.targetedArea) := by
    have := subperm_map (fun s : Site ι => s.targetedArea) (hc sites0)
    rw [← hp0, List.map_map] at this
    exact this
  have hfin := (mainLoop_invariant E data.length (totalAreaOf E) fuel
    (fun _ s => List.Subperm (s.polygons.map fun p => p.site.targetedArea)
      (sites0.map fun s => s.targetedArea))
    (fun i s s1 hP _ _ hb => by
      obtain ⟨e, hadapt, _, _⟩ := loopBody_ok E _ _ fuel i s s1 hb
      exact adapt_targetedArea E _ fuel _ _ _ _ hc hlen0 hP hadapt)
    (E.maxIterationCount - 0) 0 _ _ s rfl h0 hloop).1
  rw [hratio] at hr
  obtain ⟨e, he, her⟩ := Option.map_eq_some'.1 hr
  obtain ⟨hge, hval⟩ := computeAreaError_ok E _ _ e (hinv.2.2.2.2.2.2 e he)
  have hlen : s.polygons.length = data.length := by
    have := hfin.length_le
    simp only [List.length_map] at this hlen0
    omega
  refine ⟨sites0, hsites, ?_, by rw [hpol]; exact hlen, ?_⟩
  · rw [hpol]
    exact hfin.perm_of_length_le (by simp only [List.length_map] at hlen0 ⊢; omega)
  · rw [← her, hval, hpol, ← hlen, List.take_length]

/-- Under the contract, in every cell set given to `tick` at the end of an iteration
every weight is at least `epsilon`. -/
theorem voronoiMap_ticks_floor {ι : Type} (E : Env ι) (fuel : Nat) (data : List ι)
    (out : Output ι) (hc : OracleContract E) (h : voronoiMap E fuel data = .ok out) :
    ∀ t ∈ out.ticks, 1 ≤ t.2 → ∀ p ∈ t.1, epsilon ≤ p.site.weight := by
  obtain ⟨polygons0, s, hinit, hloop, _, _, hticks, _, _, _, _⟩ :=
    voronoiMap_spec E fuel data out h
  obtain ⟨sites0, hsites, hp0⟩ := initialise_ok E _ _ fuel data polygons0 hinit
  have horacle : ∀ pts, (E.wVoronoi pts).length ≤ pts.length := by
    intro pts
    have := (hc pts).length_le
    simpa using this
  have h0 : polygons0.length ≤ data.length := by
    rw [hp0, ← initialPoints_length E _ _ fuel data sites0 hsites]
    exact horacle sites0
  have hfin := (mainLoop_invariant E data.length (totalAreaOf E) fuel
    (fun _ s => s.polygons.length ≤ data.length ∧
      ∀ t ∈ s.ticks, 1 ≤ t.2 → ∀ p ∈ t.1, epsilon ≤ p.site.weight)
    (fun i s s1 hP _ _ hb => by
      obtain ⟨e, hadapt, _, ht⟩ := loopBody_ok E _ _ fuel i s s1 hb
      refine ⟨adapt_length_le E _ fuel _ _ _ horacle hP.1 hadapt, ?_⟩
      intro t htmem
      rw [ht, List.mem_append, List.mem_singleton] at htmem
      rcases htmem with hold | hnew
      · exact hP.2 t hold
      · intro _
        rw [hnew]
        exact adapt_floor E _ fuel _ _ _ hc hP.1 hadapt)
    (E.maxIterationCount - 0) 0 _ _ s rfl
    ⟨h0, by
      intro t ht h1
      simp only [List.mem_singleton] at ht
      rw [ht] at h1
      simp at h1⟩ hloop).1
  rw [hticks]
  exact hfin.2

theorem demoEnv_contract (cells : List (List Point)) (draws : List ℚ) (c : ℚ) (m : Nat) :
    OracleContract (demoEnv cells draws c m) := by
  intro pts
  have hmap : ∀ (cs : List (List Point)) (ps : List (Site ℚ)),
      List.Sublist ((List.zipWith (fun cell s => ({ points := cell, site := s } : Polygon ℚ))
        cs ps).map fun p => p.site) ps := by
    intro cs
    induction cs with
    | nil => intro ps; simp
    | cons c cs ih =>
      intro ps
      cases ps with
      | nil => simp
      | cons q qs =>
        simp only [List.zipWith_cons_cons, List.map_cons]
        exact (ih qs).cons₂ q
  exact (hmap cells pts).subperm

theorem unitEnv_initialPoints :
    initialPoints unitEnv [(1 : ℚ)].length (totalAreaOf unitEnv) 1 [1] = .ok unitPoints := by
  have hT : totalAreaOf unitEnv = 1 := by
    norm_num [totalAreaOf, unitEnv, demoEnv, shoelaceArea, shoelaceSum]
  rw [hT]
  norm_num [initialPoints, createTreemapPoints, extractWeights, minAllowedWeight, maxWeight,
    clampWeight, placePoints, samplePoint, unitEnv, demoEnv, minMax, unitPoints]

theorem twoEnv_cells_area (pts : List (Site ℚ)) :
    ∀ p ∈ twoEnv.wVoronoi pts, twoEnv.polygonArea p.points ≠ 0 := by
  intro p hp
  have hmem : ∀ (cs : List (List Point)) (ps : List (Site ℚ)) (q : Polygon ℚ),
      q ∈ List.zipWith (fun cell s => ({ points := cell, site := s } : Polygon ℚ)) cs ps →
      q.points ∈ cs := by
    intro cs
    induction cs with
    | nil => intro ps q hq; simp at hq
    | cons c cs ih =>
      intro ps q hq
      cases ps with
      | nil => simp at hq
      | cons r rs =>
        simp only [List.zipWith_cons_cons, List.mem_cons] at hq
        rcases hq with hq | hq
        · rw [hq]; exact List.mem_cons_self _ _
        · exact List.mem_cons_of_mem _ (ih rs q hq)
  have := hmem halfCells pts p hp
  simp only [halfCells, List.mem_cons, List.mem_singleton, List.not_mem_nil, or_false] at this
  rcases this with h | h <;> rw [show twoEnv.polygonArea = shoelaceArea from rfl, h] <;>
    norm_num [shoelaceArea, shoelaceSum]

theorem twoCells_area : ∀ p ∈ twoCells, twoEnv.polygonArea p.points ≠ 0 := by
  intro p hp
  simp only [twoCells, List.mem_cons, List.mem_singleton, List.not_mem_nil, or_false] at hp
  rcases hp with h | h <;> rw [show twoEnv.polygonArea = shoelaceArea from rfl, h] <;>
    norm_num [leftCell, shoelaceArea, shoelaceSum]

/-- C4, as stated, fails right after the initialisation: for one item in the unit
square the point is created with the weight `totalArea/siteCount/2 = 1/2`, which is
below `epsilon`. -/
theorem initial_weight_below_epsilon :
    initialPoints unitEnv [(1 : ℚ)].length (totalAreaOf unitEnv) 1 [1] = .ok unitPoints ∧
    ∃ s ∈ unitPoints, s.weight < epsilon :=
  ⟨unitEnv_initialPoints, ⟨_, List.mem_singleton.2 rfl, by norm_num [epsilon]⟩⟩

/-- C4, amended: the points are created with the weight `totalArea/siteCount/2`;
every weight-adaptation step on cells of areas other than 0, with the correction
that ends it, leaves every weight at least `epsilon`; every placement-adaptation
step, with its correction, keeps the weights that are at least `epsilon` so; and in
a run whose clamped weights do not add up to 0, with a construction that keeps its
contract and returns only cells of areas other than 0, every weight is at least
`epsilon` in the cell set at the end of every iteration. -/
theorem weight_floor_from_first_weight_adaptation {ι : Type} (E : Env ι) (fuel : Nat)
    (data : List ι) :
    (∀ sites, initialPoints E data.length (totalAreaOf E) fuel data = .ok sites →
      ∀ s ∈ sites, s.weight = totalAreaOf E / data.length / 2) ∧
    (∀ polygons f out, (∀ p ∈ polygons.take data.length, E.polygonArea p.points ≠ 0) →
      adaptWeights E data.length fuel polygons f = .ok out →
      ∀ s ∈ out, epsilon ≤ s.weight) ∧
    (∀ polygons f out, adaptPlacements E data.length fuel polygons f = .ok out →
      (∀ p ∈ polygons, epsilon ≤ p.site.weight) → ∀ s ∈ out, epsilon ≤ s.weight) ∧
    (OracleContract E → (clampedWeights E data).sum ≠ 0 →
      (∀ pts, ∀ p ∈ E.wVoronoi pts, E.polygonArea p.points ≠ 0) →
      ∀ out, voronoiMap E fuel data = .ok out →
      ∀ t ∈ out.ticks, 1 ≤ t.2 → ∀ p ∈ t.1, epsilon ≤ p.site.weight) := by
  refine ⟨?_, ?_, ?_, ?_⟩
  · intro sites h
    exact forall₂_left_all (fun s => s.weight = totalAreaOf E / data.length / 2)
      (fun _ => True) (fun _ _ hab _ => hab.2.2.2)
      (initialPoints_spec E _ _ fuel data sites h) (fun _ _ => trivial)
  · intro polygons f out _ h
    exact adaptWeights_floor E _ fuel polygons f out h
  · intro polygons f out h hw
    exact adaptPlacements_floor E _ fuel polygons f out h hw
  · intro hc _ _ out h
    exact voronoiMap_ticks_floor E fuel data out hc h

theorem weight_floor_from_first_weight_adaptation_witness :
    voronoiMap twoEnv 1 [1, 1] = .ok twoOut ∧ epsilon ≤ leftCell.site.weight :=
  ⟨twoEnv_run, (weight_floor_from_first_weight_adaptation twoEnv 1 [1, 1]).2.2.2
    (demoEnv_contract _ _ _ _) (by rw [twoEnv_clampedWeights]; norm_num) twoEnv_cells_area
    twoOut twoEnv_run (twoCells, 1)
    (by simp [twoOut]) (le_refl 1) leftCell (by simp [twoCells])⟩

theorem abs_sum_le (l : List ℚ) : |l.sum| ≤ (l.map fun y => |y|).sum := by
  induction l with
  | nil => simp
  | cons a l ih =>
    simp only [List.sum_cons, List.map_cons]
    exact (abs_add a l.sum).trans (add_le_add_left ih _)

theorem two_abs_le_sum_abs (l : List ℚ) (hsum : l.sum = 0) (x : ℚ) (hx : x ∈ l) :
    2 * |x| ≤ (l.map fun y => |y|).sum := by
  have hperm := List.perm_cons_erase hx
  have h1 : x + (l.erase x).sum = 0 := by
    rw [← List.sum_cons, ← hperm.sum_eq]; exact hsum
  have h2 : (l.map fun y => |y|).sum = |x| + ((l.erase x).map fun y => |y|).sum := by
    rw [(hperm.map fun y => |y|).sum_eq, List.map_cons, List.sum_cons]
  have h3 : |(l.erase x).sum| ≤ ((l.erase x).map fun y => |y|).sum := abs_sum_le _
  have h4 : |x| = |(l.erase x).sum| := by
    have : (l.erase x).sum = -x := by linarith
    rw [this, abs_neg]
  rw [h2]
  linarith

theorem sum_map_sub_map {α : Type} (f g : α → ℚ) (l : List α) :
    (l.map fun a => f a - g a).sum = (l.map f).sum - (l.map g).sum := by
  induction l with
  | nil => simp
  | cons a l ih => simp only [List.map_cons, List.sum_cons, ih]; ring

/-- Two items of equal weight get the same targeted area, half the total area. -/
theorem equal_weights_half {ι : Type} (E : Env ι) (n : Nat) (T : ℚ) (fuel : Nat) (a b : ι)
    (sites : List (Site ι)) (hw : E.weight a = E.weight b)
    (hsum : (clampedWeights E [a, b]).sum ≠ 0)
    (h : initialPoints E n T fuel [a, b] = .ok sites) :
    ∀ s ∈ sites, s.targetedArea = T / 2 := by
  have hF := initialPoints_targetedArea E n T fuel [a, b] sites h
  have hcw : clampedWeights E [a, b] =
      [clampWeight (E.weight a) (minAllowedWeight E [a, b]),
       clampWeight (E.weight a) (minAllowedWeight E [a, b])] := by
    rw [clampedWeights_eq]; simp [hw]
  rw [hcw] at hF hsum
  generalize clampWeight (E.weight a) (minAllowedWeight E [a, b]) = w at hF hsum
  have hw0 : w ≠ 0 := by
    intro h0
    apply hsum
    simp [h0]
  refine forall₂_left_all (fun s => s.targetedArea = T / 2) (fun w1 => w1 = w) ?_ hF ?_
  · intro s w1 hs hw1
    rw [hs, hw1]
    simp only [List.sum_cons, List.sum_nil, add_zero]
    rw [show w + w = 2 * w by ring, mul_div_mul_right _ _ hw0]
  · intro w1 hw1
    simpa using hw1

/-- C10: for a run that returns a convergence ratio below the configured one and
cells whose areas add up to `totalArea`, one cell per site (the construction keeps
its contract), the area of every returned cell differs from the targeted area of
its site by less than `convergenceRatio * totalArea / 2`; so for two items of equal
weight, total area 100 and ratio 0.01, both targeted areas are 50 and both cell
areas are within 0.5 of 50. -/
theorem cell_area_within_half_threshold {ι : Type} (E : Env ι) (fuel : Nat) (data : List ι)
    (out : Output ι) (r : ℚ) (hc : OracleContract E) (hT : 0 < totalAreaOf E)
    (hsum : (clampedWeights E data).sum ≠ 0) (h : voronoiMap E fuel data = .ok out)
    (hr : out.convergenceRatio = some r) (hlt : r < E.convergenceRatio)
    (hareas : (out.polygons.map fun p => E.polygonArea p.points).sum = totalAreaOf E) :
    out.polygons.length = data.length ∧
    (∀ p ∈ out.polygons, |E.polygonArea p.points - p.site.targetedArea| <
      E.convergenceRatio * totalAreaOf E / 2) ∧
    (∀ a b, data = [a, b] → E.weight a = E.weight b → totalAreaOf E = 100 →
      E.convergenceRatio = 1 / 100 →
      ∀ p ∈ out.polygons, p.site.targetedArea = 50 ∧ |E.polygonArea p.points - 50| < 1 / 2) := by
  obtain ⟨sites0, hsites, hperm, hlen, hrval⟩ :=
    voronoiMap_targetedArea E fuel data out r hc h hr
  have hsumT : (out.polygons.map fun p => p.site.targetedArea).sum = totalAreaOf E :=
    hperm.sum_eq.trans (initialPoints_sum E _ _ fuel data sites0 hsum hsites)
  have hzero : (out.polygons.map fun p =>
      p.site.targetedArea - E.polygonArea p.points).sum = 0 := by
    rw [sum_map_sub_map (fun p : Polygon ι => p.site.targetedArea)
      (fun p : Polygon ι => E.polygonArea p.points), hsumT, hareas, sub_self]
  have herr : cellsAreaError E out.polygons = r * totalAreaOf E := by
    rw [hrval, div_mul_cancel₀ _ (ne_of_gt hT)]
  have hmain : ∀ p ∈ out.polygons, |E.polygonArea p.points - p.site.targetedArea| <
      E.convergenceRatio * totalAreaOf E / 2 := by
    intro p hp
    have h2 := two_abs_le_sum_abs _ hzero (p.site.targetedArea - E.polygonArea p.points)
      (List.mem_map.2 ⟨p, hp, rfl⟩)
    have h3 : ((out.polygons.map fun p =>
        p.site.targetedArea - E.polygonArea p.points).map fun y => |y|).sum =
        cellsAreaError E out.polygons := by
      rw [List.map_map]; rfl
    rw [h3, herr] at h2
    rw [abs_sub_comm]
    have h4 : r * totalAreaOf E < E.convergenceRatio * totalAreaOf E :=
      mul_lt_mul_of_pos_right hlt hT
    linarith
  refine ⟨hlen, hmain, ?_⟩
  intro a b hdata hw hT100 hc100 p hp
  subst hdata
  have hhalf := equal_weights_half E _ _ fuel a b sites0 hw hsum hsites
  have hmem : p.site.targetedArea ∈ sites0.map fun s => s.targetedArea :=
    hperm.subset (List.mem_map.2 ⟨p, hp, rfl⟩)
  obtain ⟨s0, hs0, hs0eq⟩ := List.mem_map.1 hmem
  have h50 : p.site.targetedArea = 50 := by
    rw [← hs0eq, hhalf s0 hs0, hT100]; norm_num
  refine ⟨h50, ?_⟩
  have := hmain p hp
  rw [h50, hT100, hc100] at this
  norm_num at this
  exact this

theorem twoEnv_areas :
    (twoOut.polygons.map fun p => twoEnv.polygonArea p.points).sum = totalAreaOf twoEnv := by
  rw [twoEnv, totalAreaOf_demoEnv]
  norm_num [twoOut, twoCells, leftCell, demoEnv, shoelaceArea, shoelaceSum]

theorem cell_area_within_half_threshold_witness :
    leftCell.site.targetedArea = 50 ∧ |twoEnv.polygonArea leftCell.points - 50| < 1 / 2 :=
  (cell_area_within_half_threshold twoEnv 1 [1, 1] twoOut 0 (demoEnv_contract _ _ _ _)
    (by rw [twoEnv, totalAreaOf_demoEnv]; norm_num)
    (by rw [twoEnv_clampedWeights]; norm_num) twoEnv_run rfl
    (by norm_num [twoEnv, demoEnv]) twoEnv_areas).2.2 1 1 rfl rfl
    (by rw [twoEnv, totalAreaOf_demoEnv]) rfl leftCell (by simp [twoOut, twoCells])

/-! ## The per-site updates of the adaptation steps -/

theorem clampedAdaptRatio_bounds (f r : ℚ) (hf1 : f ≤ 1) :
    9 / 10 + 1 / 10 * f ≤ clampedAdaptRatio (1 / 10) (1 / 10 * f) r ∧
    clampedAdaptRatio (1 / 10) (1 / 10 * f) r ≤ 11 / 10 - 1 / 10 * f := by
  unfold clampedAdaptRatio
  constructor
  · apply le_min
    · exact le_trans (by linarith) (le_max_right _ _)
    · linarith
  · exact le_trans (min_le_right _ _) (by linarith)

/-- C14, as stated, fails: a site of weight 1/2 whose cell has exactly its targeted
area (adaptation ratio 1, flickering ratio 0) is given the weight `epsilon = 1`,
which is more than `1.1 * 1/2`. -/
theorem small_weight_jumps_to_epsilon :
    0 < lightCell.site.weight ∧ 0 < twoEnv.polygonArea lightCell.points ∧
    (reweighPoint twoEnv (1 / 10) (1 / 10 * 0) lightCell).weight = 1 ∧
    ¬ (reweighPoint twoEnv (1 / 10) (1 / 10 * 0) lightCell).weight ≤
      (11 / 10 - 1 / 10 * 0) * lightCell.site.weight := by
  norm_num [reweighPoint, clampedAdaptRatio, epsilon, lightCell, twoEnv, demoEnv, shoelaceArea,
    shoelaceSum]

/-- C14, amended: for a flickering ratio `f` in `[0, 1]`, a site of weight `w > 0`
and a cell of positive area, the weight `w'` set by the per-site update of
`adaptWeights` satisfies `(0.9 + 0.1 f) w <= w' <= max((1.1 - 0.1 f) w, epsilon)`,
hence `w' <= (1.1 - 0.1 f) w` whenever `(1.1 - 0.1 f) w >= epsilon`. -/
theorem weight_change_bounded_above_floor {ι : Type} (E : Env ι) (f : ℚ)
    (polygon : Polygon ι) (_hf0 : 0 ≤ f) (hf1 : f ≤ 1) (hw : 0 < polygon.site.weight)
    (_harea : 0 < E.polygonArea polygon.points) :
    (9 / 10 + 1 / 10 * f) * polygon.site.weight ≤
      (reweighPoint E (1 / 10) (1 / 10 * f) polygon).weight ∧
    (reweighPoint E (1 / 10) (1 / 10 * f) polygon).weight ≤
      max ((11 / 10 - 1 / 10 * f) * polygon.site.weight) epsilon ∧
    (epsilon ≤ (11 / 10 - 1 / 10 * f) * polygon.site.weight →
      (reweighPoint E (1 / 10) (1 / 10 * f) polygon).weight ≤
        (11 / 10 - 1 / 10 * f) * polygon.site.weight) := by
  obtain ⟨hlo, hhi⟩ := clampedAdaptRatio_bounds f
    (polygon.site.targetedArea / E.polygonArea polygon.points) hf1
  have hw' : (reweighPoint E (1 / 10) (1 / 10 * f) polygon).weight =
      max (polygon.site.weight * clampedAdaptRatio (1 / 10) (1 / 10 * f)
        (polygon.site.targetedArea / E.polygonArea polygon.points)) epsilon := rfl
  rw [hw']
  have h1 : (9 / 10 + 1 / 10 * f) * polygon.site.weight ≤ polygon.site.weight *
      clampedAdaptRatio (1 / 10) (1 / 10 * f)
        (polygon.site.targetedArea / E.polygonArea polygon.points) := by
    rw [mul_comm]; exact mul_le_mul_of_nonneg_left hlo hw.le
  have h2 : polygon.site.weight * clampedAdaptRatio (1 / 10) (1 / 10 * f)
      (polygon.site.targetedArea / E.polygonArea polygon.points) ≤
      (11 / 10 - 1 / 10 * f) * polygon.site.weight := by
    rw [mul_comm]; exact mul_le_mul_of_nonneg_right hhi hw.le
  refine ⟨le_trans h1 (le_max_left _ _), max_le_max h2 (le_refl _), fun he => ?_⟩
  exact max_le h2 he

theorem weight_change_bounded_above_floor_witness :
    (9 / 10 + 1 / 10 * 0) * leftCell.site.weight ≤
      (reweighPoint twoEnv (1 / 10) (1 / 10 * 0) leftCell).weight ∧
    (reweighPoint twoEnv (1 / 10) (1 / 10 * 0) leftCell).weight ≤
      (11 / 10 - 1 / 10 * 0) * leftCell.site.weight :=
  have h := weight_change_bounded_above_floor twoEnv 0 leftCell (le_refl 0) (by norm_num)
    (by norm_num [leftCell])
    (by norm_num [leftCell, twoEnv, demoEnv, shoelaceArea, shoelaceSum])
  ⟨h.1, h.2.2 (by norm_num [leftCell, epsilon])⟩

theorem sameButWeight_position {ι : Type} {a b : Site ι} (h : sameButWeight a b) :
    a.x = b.x ∧ a.y = b.y ∧ a.index = b.index ∧ a.data = b.data := by
  unfold sameButWeight at h
  rw [h]
  exact ⟨rfl, rfl, rfl, rfl⟩

/-- C15: for a flickering ratio `f` in `[0, 1]`, `adaptPlacements` leaves each site
with position `p` and cell centroid `c` at `p + d (c - p)`, `d = 1 - 0.5 f` in
`[0.5, 1]`: a point `(1 - d) p + d c` of the segment from `p` to `c`, whose offset
from `c` is `(1 - d)` times that of `p` (squared distance `(1 - d)²` times the old
one), and which is `c` itself when `f = 0`. -/
theorem placement_moves_toward_centroid {ι : Type} (E : Env ι) (n fuel : Nat)
    (polygons : List (Polygon ι)) (f : ℚ) (out : List (Site ι)) (hf0 : 0 ≤ f) (hf1 : f ≤ 1)
    (h : adaptPlacements E n fuel polygons f = .ok out) :
    (1 / 2 ≤ 1 - 1 / 2 * f ∧ 1 - 1 / 2 * f ≤ 1) ∧
    List.Forall₂ (fun (o : Site ι) (p : Polygon ι) =>
      o.x = p.site.x + (1 - 1 / 2 * f) * ((E.polygonCentroid p.points).1 - p.site.x) ∧
      o.y = p.site.y + (1 - 1 / 2 * f) * ((E.polygonCentroid p.points).2 - p.site.y) ∧
      o.x = (1 - (1 - 1 / 2 * f)) * p.site.x + (1 - 1 / 2 * f) * (E.polygonCentroid p.points).1 ∧
      o.y = (1 - (1 - 1 / 2 * f)) * p.site.y + (1 - 1 / 2 * f) * (E.polygonCentroid p.points).2 ∧
      (E.polygonCentroid p.points).1 - o.x =
        (1 - (1 - 1 / 2 * f)) * ((E.polygonCentroid p.points).1 - p.site.x) ∧
      (E.polygonCentroid p.points).2 - o.y =
        (1 - (1 - 1 / 2 * f)) * ((E.polygonCentroid p.points).2 - p.site.y) ∧
      sqr ((E.polygonCentroid p.points).1 - o.x) + sqr ((E.polygonCentroid p.points).2 - o.y) =
        (1 - (1 - 1 / 2 * f)) ^ 2 *
          (sqr ((E.polygonCentroid p.points).1 - p.site.x) +
            sqr ((E.polygonCentroid p.points).2 - p.site.y)) ∧
      (f = 0 → o.x = (E.polygonCentroid p.points).1 ∧ o.y = (E.polygonCentroid p.points).2))
      out (polygons.take n) := by
  refine ⟨⟨by linarith, by linarith⟩, ?_⟩
  unfold adaptPlacements at h
  simp only at h
  split at h
  · cases h
  · have hrel := handleOverweighted_rel E n fuel _ out h
    rw [List.forall₂_map_right_iff] at hrel
    refine hrel.imp fun o p hop => ?_
    obtain ⟨hx, hy, _, _⟩ := sameButWeight_position hop.1
    have hx1 : o.x = p.site.x + ((E.polygonCentroid p.points).1 - p.site.x) * (1 - 1 / 2 * f) :=
      hx
    have hy1 : o.y = p.site.y + ((E.polygonCentroid p.points).2 - p.site.y) * (1 - 1 / 2 * f) :=
      hy
    refine ⟨by rw [hx1]; ring, by rw [hy1]; ring, by rw [hx1]; ring, by rw [hy1]; ring,
      by rw [hx1]; ring, by rw [hy1]; ring, by rw [hx1, hy1]; simp only [sqr]; ring, ?_⟩
    intro hf
    rw [hx1, hy1, hf]
    constructor <;> ring

theorem twoEnv_adaptPlacements :
    adaptPlacements twoEnv 2 1 twoCells0 0 = .ok (twoCells.map fun p => p.site) := by
  norm_num [adaptPlacements, handleOverweighted, handleOverweighted1, scanPairs_two,
    findOverweighted, overweighted, weightest, lightest, squaredDistance, sqr, movePoint, twoEnv,
    demoEnv, twoCells0, twoCells, leftCell, vertexMean]

theorem placement_moves_toward_centroid_witness :
    List.Forall₂ (fun (o : Site ℚ) (p : Polygon ℚ) =>
      o.x = (twoEnv.polygonCentroid p.points).1 ∧ o.y = (twoEnv.polygonCentroid p.points).2)
      (twoCells.map fun p => p.site) (twoCells0.take 2) :=
  (placement_moves_toward_centroid twoEnv 2 1 twoCells0 0 (twoCells.map fun p => p.site)
    (le_refl 0) (by norm_num) twoEnv_adaptPlacements).2.imp
    fun _ _ hop => hop.2.2.2.2.2.2.2 rfl

/-! ## The margin of a corrected pair -/

/-- C16, as stated, fails: for two sites at the same position with weights 3/2 and 1
(a violating pair, margin -1/2) the fix of `handleOverweighted1` raises the lighter
weight to 5/2 and the margin of the pair becomes -1. -/
theorem fix_can_lower_margin :
    findOverweighted [closeHeavy, closeLight] (scanPairs 2) = .ok (some (0, 1)) ∧
    fix1 [closeHeavy, closeLight] 0 1 = [closeHeavy, closeLightRaised] ∧
    margin closeHeavy closeLightRaised < margin closeHeavy closeLight := by
  refine ⟨?_, ?_, ?_⟩
  · norm_num [scanPairs_two, findOverweighted, overweighted, weightest, lightest,
      squaredDistance, sqr, closeHeavy, closeLight]
  · norm_num [fix1, weightest, lightest, squaredDistance, sqr, epsilon, closeHeavy, closeLight,
      closeLightRaised]
  · norm_num [margin, squaredDistance, sqr, closeHeavy, closeLight, closeLightRaised]
    exact abs_lt.2 ⟨by norm_num, by norm_num⟩

/-- C16, amended: a fix of `handleOverweighted1` (epsilon = 1) at a violating pair
strictly increases the margin `dist² - |w_i - w_j|` of that pair exactly when
`dist² + (heavier - lighter) > epsilon`; in particular it does whenever
`dist² >= epsilon`, the margin after the fix then being `epsilon`. -/
theorem fix_raises_margin_iff {ι : Type} (tps : List (Site ι)) (i j : Nat)
    (tpi tpj : Site ι) (hij : i ≠ j) (hi : tps[i]? = some tpi) (hj : tps[j]? = some tpj)
    (hov : overweighted tpi tpj = true) :
    ∃ oi oj, (fix1 tps i j)[i]? = some oi ∧ (fix1 tps i j)[j]? = some oj ∧
      squaredDistance oi oj = squaredDistance tpi tpj ∧
      (margin tpi tpj < margin oi oj ↔
        epsilon < squaredDistance tpi tpj + |tpi.weight - tpj.weight|) ∧
      (epsilon ≤ squaredDistance tpi tpj →
        margin oi oj = epsilon ∧ margin tpi tpj < margin oi oj) := by
  have hov1 := (overweighted_eq_true_iff _ _).1 hov
  have hd := squaredDistance_nonneg tpi tpj
  have he : epsilon = 1 := rfl
  have hilt := (List.getElem?_eq_some_iff.1 hi).1
  have hjlt := (List.getElem?_eq_some_iff.1 hj).1
  by_cases hgt : tpi.weight > tpj.weight
  · have habs : |tpi.weight - tpj.weight| = tpi.weight - tpj.weight :=
      abs_of_pos (sub_pos.2 hgt)
    rw [habs] at hov1 ⊢
    have hfix : fix1 tps i j = tps.set j { tpj with weight := tpj.weight +
        (tpi.weight - tpj.weight - squaredDistance tpi tpj + epsilon) } := by
      simp only [fix1, hi, hj, hgt, if_true, weightest, lightest]
    refine ⟨tpi, { tpj with weight := tpj.weight +
        (tpi.weight - tpj.weight - squaredDistance tpi tpj + epsilon) }, ?_, ?_, rfl, ?_, ?_⟩
    · rw [hfix, List.getElem?_set_ne (Ne.symm hij)]; exact hi
    · rw [hfix, List.getElem?_set, if_pos rfl, if_pos hjlt]
    · have hm : margin tpi { tpj with weight := tpj.weight +
          (tpi.weight - tpj.weight - squaredDistance tpi tpj + epsilon) } =
          squaredDistance tpi tpj - |squaredDistance tpi tpj - epsilon| := by
        show squaredDistance tpi tpj - |tpi.weight - (tpj.weight +
          (tpi.weight - tpj.weight - squaredDistance tpi tpj + epsilon))| = _
        rw [show tpi.weight - (tpj.weight +
          (tpi.weight - tpj.weight - squaredDistance tpi tpj + epsilon)) =
          squaredDistance tpi tpj - epsilon by ring]
      rw [hm, margin, habs]
      constructor
      · intro h
        have := neg_abs_le (squaredDistance tpi tpj - epsilon)
        have h2 : |squaredDistance tpi tpj - epsilon| < tpi.weight - tpj.weight := by linarith
        have := (abs_lt.1 h2).1
        linarith
      · intro h
        have h2 : |squaredDistance tpi tpj - epsilon| < tpi.weight - tpj.weight :=
          abs_lt.2 ⟨by linarith, by linarith⟩
        linarith
    · intro hge
      have hm : margin tpi { tpj with weight := tpj.weight +
          (tpi.weight - tpj.weight - squaredDistance tpi tpj + epsilon) } = epsilon := by
        show squaredDistance tpi tpj - |tpi.weight - (tpj.weight +
          (tpi.weight - tpj.weight - squaredDistance tpi tpj + epsilon))| = _
        have : tpi.weight - (tpj.weight +
            (tpi.weight - tpj.weight - squaredDistance tpi tpj + epsilon)) =
            squaredDistance tpi tpj - epsilon := by ring
        rw [this, abs_of_nonneg (sub_nonneg.2 hge)]
        ring
      refine ⟨hm, ?_⟩
      rw [hm, margin, habs]
      linarith
  · have hle : tpi.weight ≤ tpj.weight := not_lt.1 hgt
    have habs : |tpi.weight - tpj.weight| = tpj.weight - tpi.weight := by
      rw [abs_of_nonpos (sub_nonpos.2 hle)]; ring
    rw [habs] at hov1 ⊢
    have hfix : fix1 tps i j = tps.set i { tpi with weight := tpi.weight +
        (tpj.weight - tpi.weight - squaredDistance tpi tpj + epsilon) } := by
      simp only [fix1, hi, hj, hgt, if_false, weightest, lightest]
    refine ⟨{ tpi with weight := tpi.weight +
        (tpj.weight - tpi.weight - squaredDistance tpi tpj + epsilon) }, tpj, ?_, ?_, rfl, ?_, ?_⟩
    · rw [hfix, List.getElem?_set, if_pos rfl, if_pos hilt]
    · rw [hfix, List.getElem?_set_ne hij]; exact hj
    · have hm : margin { tpi with weight := tpi.weight +
          (tpj.weight - tpi.weight - squaredDistance tpi tpj + epsilon) } tpj =
          squaredDistance tpi tpj - |epsilon - squaredDistance tpi tpj| := by
        show squaredDistance tpi tpj - |tpi.weight +
          (tpj.weight - tpi.weight - squaredDistance tpi tpj + epsilon) - tpj.weight| = _
        rw [show tpi.weight + (tpj.weight - tpi.weight - squaredDistance tpi tpj + epsilon) -
          tpj.weight = epsilon - squaredDistance tpi tpj by ring]
      rw [hm, margin, habs]
      constructor
      · intro h
        have h2 : |epsilon - squaredDistance tpi tpj| < tpj.weight - tpi.weight := by linarith
        have := (abs_lt.1 h2).2
        linarith
      · intro h
        have h2 : |epsilon - squaredDistance tpi tpj| < tpj.weight - tpi.weight :=
          abs_lt.2 ⟨by linarith, by linarith⟩
        linarith
    · intro hge
      have hm : margin { tpi with weight := tpi.weight +
          (tpj.weight - tpi.weight - squaredDistance tpi tpj + epsilon) } tpj = epsilon := by
        show squaredDistance tpi tpj - |tpi.weight +
          (tpj.weight - tpi.weight - squaredDistance tpi tpj + epsilon) - tpj.weight| = _
        have : tpi.weight + (tpj.weight - tpi.weight - squaredDistance tpi tpj + epsilon) -
            tpj.weight = -(squaredDistance tpi tpj - epsilon) := by ring
        rw [this, abs_neg, abs_of_nonneg (sub_nonneg.2 hge)]
        ring
      refine ⟨hm, ?_⟩
      rw [hm, margin, habs]
      linarith

theorem farPoints_overweighted :
    ∃ tpi tpj, farPoints[0]? = some tpi ∧ farPoints[1]? = some tpj ∧
      overweighted tpi tpj = true ∧ epsilon ≤ squaredDistance tpi tpj := by
  refine ⟨_, _, rfl, rfl, ?_, ?_⟩
  · norm_num [overweighted, weightest, lightest, squaredDistance, sqr, farPoints]
  · norm_num [squaredDistance, sqr, epsilon, farPoints]

theorem fix_raises_margin_iff_witness :
    ∃ oi oj, (fix1 farPoints 0 1)[0]? = some oi ∧ (fix1 farPoints 0 1)[1]? = some oj ∧
      margin oi oj = epsilon :=
  match farPoints_overweighted with
  | ⟨tpi, tpj, hi, hj, hov, hge⟩ =>
    match fix_raises_margin_iff farPoints 0 1 tpi tpj (by decide) hi hj hov with
    | ⟨oi, oj, h0, h1, _, _, hm⟩ => ⟨oi, oj, h0, h1, (hm hge).1⟩

/-! ## The default corrector and the weight adaptation -/

theorem twoEnv_adaptWeights :
    adaptWeights twoEnv 2 1 twoCells 0 = .ok (twoCells.map fun p => p.site) := by
  norm_num [adaptWeights, handleOverweighted, handleOverweighted1, scanPairs_two,
    findOverweighted, overweighted, weightest, lightest, squaredDistance, sqr, reweighPoint,
    clampedAdaptRatio, epsilon, twoEnv, demoEnv, twoCells, leftCell, shoelaceArea, shoelaceSum]

/-- C19: with the default corrector, after a call of `adaptWeights` that returns
every site's weight is at least `epsilon`, whatever the weights were before: the
per-site update gives a weight of at least `epsilon` and the raise-light correction
that follows returns a weight no lower than that. The cells have areas other than 0,
the divisor of the update. -/
theorem adaptWeights_weights_ge_epsilon {ι : Type} (E : Env ι) (n fuel : Nat)
    (polygons : List (Polygon ι)) (f : ℚ) (out : List (Site ι))
    (hv : E.handleOverweightedVariant = 1)
    (_harea : ∀ p ∈ polygons.take n, E.polygonArea p.points ≠ 0)
    (h : adaptWeights E n fuel polygons f = .ok out) :
    (∀ s ∈ out, epsilon ≤ s.weight) ∧
    List.Forall₂ (fun (o : Site ι) (p : Polygon ι) =>
      epsilon ≤ (reweighPoint E (1 / 10) (1 / 10 * f) p).weight ∧
      (reweighPoint E (1 / 10) (1 / 10 * f) p).weight ≤ o.weight) out (polygons.take n) := by
  refine ⟨adaptWeights_floor E n fuel polygons f out h, ?_⟩
  unfold adaptWeights at h
  simp only at h
  split at h
  · cases h
  · unfold handleOverweighted at h
    rw [hv] at h
    have hrel := handleOverweighted1_rel n fuel _ out h
    rw [List.forall₂_map_right_iff] at hrel
    exact hrel.imp fun o p hop => ⟨le_max_right _ _, hop.2⟩

theorem adaptWeights_weights_ge_epsilon_witness :
    adaptWeights twoEnv 2 1 twoCells 0 = .ok (twoCells.map fun p => p.site) ∧
    epsilon ≤ leftCell.site.weight :=
  ⟨twoEnv_adaptWeights,
    (adaptWeights_weights_ge_epsilon twoEnv 2 1 twoCells 0 (twoCells.map fun p => p.site) rfl
      (fun p hp => twoCells_area p (List.mem_of_mem_take hp))
      twoEnv_adaptWeights).1 leftCell.site (by simp [twoCells])⟩

/-- C20: `handleOverweighted1` changes nothing but weights and only upwards: the
returned sites have the positions, indices, targeted areas and data they had, and
weights no lower; a fix changes one site only, the lighter of the violating pair,
whose weight it strictly increases to `heavier - dist² + epsilon`; and on a list
with no violating pair the call returns the list unchanged. -/
theorem raise_light_frame {ι : Type} (n : Nat) (tps : List (Site ι)) :
    (∀ fuel out, handleOverweighted1 n fuel tps = .ok out →
      List.Forall₂ (fun (o t : Site ι) =>
        o.x = t.x ∧ o.y = t.y ∧ o.index = t.index ∧ o.targetedArea = t.targetedArea ∧
        o.data = t.data ∧ t.weight ≤ o.weight) out tps) ∧
    (∀ i j, findOverweighted tps (scanPairs n) = .ok (some (i, j)) →
      ∃ (k m : Nat) (sk sm : Site ι), ((k = i ∧ m = j) ∨ (k = j ∧ m = i)) ∧
        tps[k]? = some sk ∧ tps[m]? = some sm ∧ sk.weight < sm.weight ∧
        sk.weight < sm.weight - squaredDistance sk sm + epsilon ∧
        fix1 tps i j =
          tps.set k { sk with weight := sm.weight - squaredDistance sk sm + epsilon } ∧
        ∀ l, l ≠ k → (fix1 tps i j)[l]? = tps[l]?) ∧
    (findOverweighted tps (scanPairs n) = .ok none →
      ∀ fuel, handleOverweighted1 n (fuel + 1) tps = .ok tps) := by
  refine ⟨?_, ?_, ?_⟩
  · intro fuel out h
    refine (handleOverweighted1_rel n fuel tps out h).imp fun o t hot => ?_
    obtain ⟨hx, hy, hi, hd⟩ := sameButWeight_position hot.1
    exact ⟨hx, hy, hi, sameButWeight_targetedArea hot.1, hd, hot.2⟩
  · intro i j hscan
    obtain ⟨_, tpi, tpj, hi, hj, hov⟩ := findOverweighted_some tps i j _ hscan
    obtain ⟨k, m, sk, sm, hkm, hk, hm, hlt, hfix⟩ := fix1_spec tps i j tpi tpj hi hj hov
    have hd := squaredDistance_nonneg sk sm
    have he : epsilon = 1 := rfl
    refine ⟨k, m, sk, sm, hkm, hk, hm, by linarith, by linarith, hfix, ?_⟩
    intro l hl
    rw [hfix, List.getElem?_set_ne (Ne.symm hl)]
  · intro hscan fuel
    rw [handleOverweighted1, hscan]

theorem raise_light_frame_witness :
    List.Forall₂ (fun (o t : Site ℚ) =>
      o.x = t.x ∧ o.y = t.y ∧ o.index = t.index ∧ o.targetedArea = t.targetedArea ∧
      o.data = t.data ∧ t.weight ≤ o.weight) farPointsRaised farPoints :=
  (raise_light_frame 2 farPoints).1 2 farPointsRaised farPoints_raised

/-! ## Runs with no iteration and runs with one item -/

theorem noIterEnv_initialise : initialise noIterEnv 2 100 1 [1, 1] = .ok twoCells0 := by
  norm_num [initialise, initialPoints, createTreemapPoints, extractWeights, minAllowedWeight,
    maxWeight, clampWeight, placePoints, samplePoint, noIterEnv, demoEnv, squareClip, minMax,
    insideSquare, twoDraws, halfCells, twoCells0]

/-- C18 fails on the code: with `maxIterationCount = 0` the loop body is not executed
and the initial cells and `iterationCount = 0` are returned, but `areaError` is still
`undefined`, so the returned `convergenceRatio` is `NaN` (`none`) and not the area
error of the initial cells over `totalArea`, which here is the number 0. -/
theorem no_iteration_ratio_undefined :
    noIterEnv.maxIterationCount = 0 ∧
    voronoiMap noIterEnv 1 [1, 1] = .ok noIterOut ∧
    noIterOut.iterationCount = 0 ∧ noIterOut.polygons = twoCells0 ∧
    noIterOut.convergenceRatio = none ∧
    cellsAreaError noIterEnv twoCells0 / totalAreaOf noIterEnv = 0 := by
  refine ⟨rfl, ?_, rfl, rfl, rfl, ?_⟩
  · unfold voronoiMap
    have hT : totalAreaOf noIterEnv = 100 := totalAreaOf_demoEnv _ _ _ _
    have hm : noIterEnv.maxIterationCount = 0 := rfl
    simp only [hT, List.length_cons, List.length_nil, Nat.zero_add, Nat.reduceAdd,
      noIterEnv_initialise]
    rw [mainLoop, dif_pos (Or.inr (by simp [hm]))]
    simp [noIterOut]
  · norm_num [cellsAreaError, noIterEnv, demoEnv, twoCells0, shoelaceArea, shoelaceSum]

theorem soloEnv_initialise : initialise soloEnv 1 100 1 [1] = .ok oneCells := by
  norm_num [initialise, initialPoints, createTreemapPoints, extractWeights, minAllowedWeight,
    maxWeight, clampWeight, placePoints, samplePoint, soloEnv, demoEnv, squareClip, minMax,
    insideSquare, oneCells]

theorem soloEnv_adapt : adapt soloEnv 1 1 oneCells 0 = .ok oneCells := by
  norm_num [adapt, adaptPlacements, adaptWeights, adaptedTreemapPoints, handleOverweighted,
    handleOverweighted1, scanPairs, findOverweighted, movePoint, reweighPoint,
    clampedAdaptRatio, epsilon, soloEnv, demoEnv, oneCells, vertexMean, shoelaceArea,
    shoelaceSum]

theorem soloEnv_areaError : computeAreaError soloEnv 1 oneCells = .ok 0 := by
  norm_num [computeAreaError, soloEnv, demoEnv, oneCells, shoelaceArea, shoelaceSum]

theorem soloEnv_run : voronoiMap soloEnv 1 [1] = .ok soloOut := by
  unfold voronoiMap
  have hT : totalAreaOf soloEnv = 100 := totalAreaOf_demoEnv _ _ _ _
  have hm : soloEnv.maxIterationCount = 50 := rfl
  have hf : soloEnv.flickeringRatio = fun _ _ => 0 := rfl
  have hc : soloEnv.convergenceRatio = 1 / 100 := rfl
  have hbody : loopBody soloEnv 1 100 1 0
      { polygons := oneCells, converged := false, areaError := none, errors := [],
        ticks := [(oneCells, 0)] } =
      .ok { polygons := oneCells, converged := true, areaError := some 0, errors := [0],
            ticks := [(oneCells, 0), (oneCells, 1)] } := by
    simp only [loopBody, hf, soloEnv_adapt, soloEnv_areaError, hc]
    norm_num
  simp only [hT, List.length_cons, List.length_nil, Nat.zero_add, soloEnv_initialise]
  rw [mainLoop, dif_neg (by simp [hm])]
  simp only [hbody]
  rw [mainLoop, dif_pos (Or.inl rfl)]
  simp [soloOut]

/-- C11, as stated, fails: for one item of weight 1 in the square, default
configuration, the construction returning the whole square as the only cell,
`_voronoiMap` executes one iteration and returns `iterationCount = 1`. -/
theorem one_item_runs_one_iteration :
    voronoiMap soloEnv 1 [1] = .ok soloOut ∧ soloOut.iterationCount ≠ 0 :=
  ⟨soloEnv_run, by decide⟩

theorem scanPairs_one : scanPairs 1 = [] := by decide

theorem adapt_single {ι : Type} (E : Env ι) (k : Nat) (p0 : Polygon ι) (f : ℚ)
    (hv : E.handleOverweightedVariant = 1)
    (hcell : ∀ s, ∃ cell, E.wVoronoi [s] = [{ points := cell, site := s }] ∧
      E.polygonArea cell = totalAreaOf E) :
    ∃ cell s1, adapt E 1 (k + 1) [p0] f = .ok [{ points := cell, site := s1 }] ∧
      E.polygonArea cell = totalAreaOf E ∧ s1.targetedArea = p0.site.targetedArea := by
  have hp : adaptPlacements E 1 (k + 1) [p0] f = .ok [movePoint E (1 - 1 / 2 * f) p0] := by
    simp [adaptPlacements, handleOverweighted, hv, handleOverweighted1, scanPairs_one,
      findOverweighted]
  obtain ⟨cell1, hc1, _⟩ := hcell (movePoint E (1 - 1 / 2 * f) p0)
  have hw : adaptWeights E 1 (k + 1)
      [{ points := cell1, site := movePoint E (1 - 1 / 2 * f) p0 }] f =
      .ok [reweighPoint E (1 / 10) (1 / 10 * f)
        { points := cell1, site := movePoint E (1 - 1 / 2 * f) p0 }] := by
    simp [adaptWeights, handleOverweighted, hv, handleOverweighted1, scanPairs_one,
      findOverweighted]
  obtain ⟨cell2, hc2, ha2⟩ := hcell (reweighPoint E (1 / 10) (1 / 10 * f)
    { points := cell1, site := movePoint E (1 - 1 / 2 * f) p0 })
  refine ⟨cell2, reweighPoint E (1 / 10) (1 / 10 * f)
    { points := cell1, site := movePoint E (1 - 1 / 2 * f) p0 }, ?_, ha2, rfl⟩
  simp only [adapt, hp, adaptedTreemapPoints, List.drop, List.map, List.append_nil, hc1, hw,
    hc2]

/-- C11, amended: for one item of positive weight, a clip polygon of positive area,
the default corrector, a positive convergence ratio and `maxIterationCount >= 1`,
when the construction returns for a single point the single cell whose area is
`totalArea` and the seed sampling returns, `_voronoiMap` executes exactly one
adaptation iteration and returns `iterationCount = 1` with convergence ratio 0. -/
theorem one_item_converges_at_first_iteration {ι : Type} (E : Env ι) (fuel : Nat) (d : ι)
    (hv : E.handleOverweightedVariant = 1) (hm : 1 ≤ E.maxIterationCount)
    (hc : 0 < E.convergenceRatio) (hT : 0 < totalAreaOf E) (hw : 0 < E.weight d)
    (hcell : ∀ s, ∃ cell, E.wVoronoi [s] = [{ points := cell, site := s }] ∧
      E.polygonArea cell = totalAreaOf E)
    (hsample : ∃ sites, initialPoints E 1 (totalAreaOf E) fuel [d] = .ok sites) :
    ∃ out, voronoiMap E fuel [d] = .ok out ∧ out.iterationCount = 1 ∧
      out.convergenceRatio = some 0 ∧ out.errors = [0] ∧ out.ticks.length = 2 := by
  obtain ⟨sites, hs⟩ := hsample
  obtain ⟨k, rfl⟩ : ∃ k, fuel = k + 1 := by
    cases fuel with
    | zero =>
      simp [initialPoints, createTreemapPoints, extractWeights, placePoints, samplePoint] at hs
    | succ k => exact ⟨k, rfl⟩
  have hspec := initialPoints_spec E 1 (totalAreaOf E) (k + 1) [d] sites hs
  obtain ⟨s0, rfl⟩ : ∃ s0, sites = [s0] := by
    cases hspec with
    | cons _ hrest => cases hrest; exact ⟨_, rfl⟩
  have htA : s0.targetedArea = totalAreaOf E := by
    cases hspec with
    | cons h0 _ =>
      obtain ⟨_, hw0, ht0, _⟩ := h0
      have hcw : (clampedWeights E [d]).sum = s0.data.weight := by
        rw [clampedWeights_eq, hw0]; simp
      have hpos : 0 < s0.data.weight := by
        rw [hw0]
        simp only [minAllowedWeight, maxWeight, List.foldl_cons, List.foldl_nil, Option.map_some',
          clampWeight]
        exact lt_of_lt_of_le hw (le_max_left _ _)
      rw [ht0, hcw, mul_div_assoc, div_self (ne_of_gt hpos), mul_one]
  obtain ⟨cell0, hc0, _⟩ := hcell s0
  obtain ⟨cell, s1, hadapt, harea, hs1⟩ := adapt_single E k { points := cell0, site := s0 }
    (E.flickeringRatio (totalAreaOf E) []) hv hcell
  have hcomp : computeAreaError E 1 [{ points := cell, site := s1 }] = .ok 0 := by
    simp [computeAreaError, harea, hs1, htA]
  have hthr : (0 : ℚ) < E.convergenceRatio * totalAreaOf E := mul_pos hc hT
  refine ⟨{ polygons := [{ points := cell, site := s1 }], iterationCount := 1,
            convergenceRatio := some 0,
            ticks := [([{ points := cell0, site := s0 }], 0),
              ([{ points := cell, site := s1 }], 1)],
            errors := [0] }, ?_, rfl, rfl, rfl, rfl⟩
  unfold voronoiMap
  simp only [List.length_cons, List.length_nil, Nat.zero_add, initialise, hs, hc0]
  rw [mainLoop, dif_neg (by simp; omega)]
  simp only [loopBody, hadapt, hcomp]
  rw [mainLoop, dif_pos (Or.inl (by simpa using hthr))]
  simp

theorem one_item_converges_at_first_iteration_witness :
    ∃ out, voronoiMap soloEnv 1 [1] = .ok out ∧ out.iterationCount = 1 ∧
      out.convergenceRatio = some 0 ∧ out.errors = [0] ∧ out.ticks.length = 2 :=
  one_item_converges_at_first_iteration soloEnv 1 1 rfl (by decide)
    (by norm_num [soloEnv, demoEnv])
    (by rw [soloEnv, totalAreaOf_demoEnv]; norm_num) (by norm_num [soloEnv, demoEnv])
    (by
      intro s
      refine ⟨[(0, 0), (0, 10), (10, 10), (10, 0)], by simp [soloEnv, demoEnv], ?_⟩
      rw [soloEnv, totalAreaOf_demoEnv]
      norm_num [demoEnv, shoelaceArea, shoelaceSum])
    ⟨oneCells.map fun p => p.site, by
      rw [soloEnv, totalAreaOf_demoEnv]
      norm_num [initialPoints, createTreemapPoints, extractWeights, minAllowedWeight,
        maxWeight, clampWeight, placePoints, samplePoint, demoEnv, squareClip, minMax,
        insideSquare, oneCells]⟩

/-! ## Seed sampling in a clip polygon that contains no point -/

theorem samplePoint_never {ι : Type} (E : Env ι) (x0 dx y0 dy : ℚ)
    (hout : ∀ p, E.polygonContains E.clip p = false) :
    ∀ fuel k, samplePoint E x0 dx y0 dy fuel k = .error .outOfFuel := by
  intro fuel
  induction fuel with
  | zero => intro k; rfl
  | succ fuel ih =>
    intro k
    simp only [samplePoint, hout, Bool.false_eq_true, if_false]
    exact ih (k + 2)

/-- When no point passes the containment test, a call with at least one item does
not get past the sampling of the first position, whatever the fuel. -/
theorem voronoiMap_sampling_never {ι : Type} (E : Env ι) (data : List ι) (hne : data ≠ [])
    (hout : ∀ p, E.polygonContains E.clip p = false) (fuel : Nat) :
    voronoiMap E fuel data = .error .outOfFuel := by
  cases data with
  | nil => exact absurd rfl hne
  | cons d ds =>
    simp only [voronoiMap, initialise, initialPoints, createTreemapPoints, extractWeights,
      placePoints, samplePoint_never E _ _ _ _ hout]

/-- C13, as stated, fails: for one item and a clip polygon of zero area in which no
point passes the containment test, `_voronoiMap` ends for no number of sampling
attempts, neither with a result nor with an error: the sampling goes on. -/
theorem sampling_never_fails_on_flat_clip :
    totalAreaOf flatEnv = 0 ∧
    ¬ ∃ fuel, voronoiMap flatEnv fuel [1] ≠ .error .outOfFuel := by
  constructor
  · norm_num [totalAreaOf, flatEnv, demoEnv, shoelaceArea, shoelaceSum]
  · rintro ⟨fuel, h⟩
    exact h (voronoiMap_sampling_never flatEnv [1] (by simp) (fun _ => rfl) fuel)

/-- C13, amended: for a clip region in which no sampled point passes the
point-in-polygon test (as for a region of zero area) and at least one item,
`_voronoiMap` does not return and raises no error: `createTreemapPoints` resamples
the first position without bound, so every bounded number of attempts is exceeded. -/
theorem sampling_unbounded_without_inside_point {ι : Type} (E : Env ι) (data : List ι)
    (hne : data ≠ []) (hout : ∀ p, E.polygonContains E.clip p = false) :
    (∀ fuel, voronoiMap E fuel data = .error .outOfFuel) ∧
    (∀ fuel k x0 dx y0 dy, samplePoint E x0 dx y0 dy fuel k = .error .outOfFuel) :=
  ⟨voronoiMap_sampling_never E data hne hout,
    fun fuel k x0 dx y0 dy => samplePoint_never E x0 dx y0 dy hout fuel k⟩

theorem sampling_unbounded_without_inside_point_witness :
    voronoiMap flatEnv 1000 [1] = .error .outOfFuel :=
  (sampling_unbounded_without_inside_point flatEnv [1] (by simp) (fun _ => rfl)).1 1000

/-! ## Degenerate diagrams -/

theorem mainLoop_of_reached {ι : Type} (E : Env ι) (n : Nat) (T : ℚ) (fuel : Nat)
    (polygons0 : List (Polygon ι)) (i : Nat) (s : LoopState ι)
    (h : Reached E n T fuel polygons0 i s) :
    mainLoop E n T fuel 0
      { polygons := polygons0, converged := false, areaError := none, errors := [],
        ticks := [(polygons0, 0)] } = mainLoop E n T fuel i s := by
  induction h with
  | start => rfl
  | step _ hc hi hbody ih =>
    rename_i i s s1
    rw [ih]
    conv_lhs => rw [mainLoop]
    rw [dif_neg (by simp [hc]; omega)]
    simp only [hbody]

theorem mainLoop_body_error {ι : Type} (E : Env ι) (n : Nat) (T : ℚ) (fuel : Nat) (i : Nat)
    (s : LoopState ι) (e : Fault) (hc : s.converged = false) (hi : i < E.maxIterationCount)
    (hbody : loopBody E n T fuel i s = .error e) : mainLoop E n T fuel i s = .error e := by
  rw [mainLoop, dif_neg (by simp [hc]; omega)]
  simp only [hbody]

/-- C12, amended: when, in an iteration that a run executes, the construction
returns fewer cells than `siteCount` after the placement step or after the weight
step of `adapt`, the condition itself is only logged, and the run returns no result:
the `TypeError` raised by the next read of `polygons[i]`, in `adaptWeights` or in
`computeAreaError`, reaches the caller of `_voronoiMap`. -/
theorem degenerate_diagram_raises {ι : Type} (E : Env ι) (fuel : Nat) (data : List ι)
    (polygons0 : List (Polygon ι)) (i : Nat) (s : LoopState ι)
    (hinit : initialise E data.length (totalAreaOf E) fuel data = .ok polygons0)
    (hreach : Reached E data.length (totalAreaOf E) fuel polygons0 i s)
    (hc : s.converged = false) (hi : i < E.maxIterationCount)
    (hdeg : (∃ placed, adaptPlacements E data.length fuel s.polygons
          (E.flickeringRatio (totalAreaOf E) s.errors) = .ok placed ∧
        (E.wVoronoi (adaptedTreemapPoints data.length placed s.polygons)).length
          < data.length) ∨
      (∃ placed reweighed, adaptPlacements E data.length fuel s.polygons
          (E.flickeringRatio (totalAreaOf E) s.errors) = .ok placed ∧
        adaptWeights E data.length fuel
          (E.wVoronoi (adaptedTreemapPoints data.length placed s.polygons))
          (E.flickeringRatio (totalAreaOf E) s.errors) = .ok reweighed ∧
        (E.wVoronoi (adaptedTreemapPoints data.length reweighed
          (E.wVoronoi (adaptedTreemapPoints data.length placed s.polygons)))).length
          < data.length)) :
    voronoiMap E fuel data = .error .typeError ∧
    loopBody E data.length (totalAreaOf E) fuel i s = .error .typeError := by
  have hbody : loopBody E data.length (totalAreaOf E) fuel i s = .error .typeError := by
    rcases hdeg with ⟨placed, hp, hlt⟩ | ⟨placed, reweighed, hp, hw, hlt⟩
    · have hw : adaptWeights E data.length fuel
          (E.wVoronoi (adaptedTreemapPoints data.length placed s.polygons))
          (E.flickeringRatio (totalAreaOf E) s.errors) = .error .typeError := by
        simp only [adaptWeights, hlt, if_true]
      simp only [loopBody, adapt, hp, hw]
    · simp only [loopBody, adapt, hp, hw, computeAreaError, hlt, if_true]
  refine ⟨?_, hbody⟩
  unfold voronoiMap
  simp only [hinit]
  rw [mainLoop_of_reached E _ _ fuel polygons0 i s hreach,
    mainLoop_body_error E _ _ fuel i s _ hc hi hbody]

theorem shrinkEnv_initialise :
    initialise shrinkEnv [(1 : ℚ), 1].length (totalAreaOf shrinkEnv) 1 [1, 1] = .ok twoCells0 := by
  have hT : totalAreaOf shrinkEnv = 100 := by
    norm_num [totalAreaOf, shrinkEnv, twoEnv, demoEnv, squareClip, shoelaceArea, shoelaceSum]
  rw [hT]
  norm_num [initialise, initialPoints, createTreemapPoints, extractWeights, minAllowedWeight,
    maxWeight, clampWeight, placePoints, samplePoint, shrinkEnv, twoEnv, demoEnv, squareClip,
    minMax, insideSquare, twoDraws, halfCells, twoCells0]

theorem shrinkEnv_adaptPlacements :
    adaptPlacements shrinkEnv [(1 : ℚ), 1].length 1 twoCells0
      (shrinkEnv.flickeringRatio (totalAreaOf shrinkEnv) []) =
      .ok (twoCells.map fun p => p.site) := by
  norm_num [adaptPlacements, handleOverweighted, handleOverweighted1, scanPairs_two,
    findOverweighted, overweighted, weightest, lightest, squaredDistance, sqr, movePoint,
    shrinkEnv, twoEnv, demoEnv, twoCells0, twoCells, leftCell, vertexMean]

theorem degenerate_diagram_raises_witness :
    voronoiMap shrinkEnv 1 [1, 1] = .error .typeError :=
  (degenerate_diagram_raises shrinkEnv 1 [1, 1] twoCells0 0 _ shrinkEnv_initialise
    Reached.start rfl (by decide)
    (Or.inl ⟨twoCells.map fun p => p.site, shrinkEnv_adaptPlacements, by
      norm_num [adaptedTreemapPoints, shrinkEnv, twoEnv, demoEnv, twoCells0, twoCells, leftCell,
        halfCells]⟩)).1

/-! ## The calls of the observer -/

/-- The calls of `tick` made by a run of the loop: the first is the call before the
loop, each later one follows an execution of `adapt` on the cells of the call
before it, with the next index. -/
theorem mainLoop_ticks {ι : Type} (E : Env ι) (n : Nat) (T : ℚ) (fuel : Nat)
    (polygons0 : List (Polygon ι)) (k : Nat) (s : LoopState ι)
    (h : mainLoop E n T fuel 0
      { polygons := polygons0, converged := false, areaError := none, errors := [],
        ticks := [(polygons0, 0)] } = .ok (k, s)) :
    s.ticks.head? = some (polygons0, 0) ∧
    List.Chain' (fun t t1 => t1.2 = t.2 + 1 ∧ ∃ f, adapt E n fuel t.1 f = .ok t1.1) s.ticks := by
  have hinv := (mainLoop_invariant E n T fuel
    (fun i s => s.ticks.head? = some (polygons0, 0) ∧
      s.ticks.getLast? = some (s.polygons, i) ∧
      List.Chain' (fun t t1 => t1.2 = t.2 + 1 ∧ ∃ f, adapt E n fuel t.1 f = .ok t1.1) s.ticks)
    (fun i s s1 hP _ _ hb => by
      obtain ⟨e, hadapt, _, ht⟩ := loopBody_ok E n T fuel i s s1 hb
      obtain ⟨hhead, hlast, hchain⟩ := hP
      rw [ht]
      refine ⟨?_, by simp, ?_⟩
      · cases hts : s.ticks with
        | nil => rw [hts] at hhead; cases hhead
        | cons t ts => rw [hts] at hhead; simpa using hhead
      · refine hchain.append (List.chain'_singleton _) ?_
        intro x hx y hy
        rw [hlast] at hx
        simp only [Option.mem_def, Option.some.injEq] at hx
        simp only [List.head?_cons, Option.mem_def, Option.some.injEq] at hy
        subst hx
        subst hy
        exact ⟨rfl, _, hadapt⟩)
    (E.maxIterationCount - 0) 0
    { polygons := polygons0, converged := false, areaError := none, errors := [],
      ticks := [(polygons0, 0)] } k s rfl
    ⟨rfl, rfl, List.chain'_singleton _⟩ h).1
  exact ⟨hinv.1, hinv.2.2⟩

/-- C17: in a run that returns, `tick` is called `iterationCount + 1` times, with the
indices `0, 1, ..., iterationCount` in that order: first with the initial cells and
index 0, then once after each iteration with the cells that `adapt` returned in that
iteration, the last call receiving the returned cells and the returned
`iterationCount`. -/
theorem tick_called_once_per_iteration {ι : Type} (E : Env ι) (fuel : Nat) (data : List ι)
    (out : Output ι) (h : voronoiMap E fuel data = .ok out) :
    out.ticks.length = out.iterationCount + 1 ∧
    out.ticks.map (fun t => t.2) = List.range (out.iterationCount + 1) ∧
    (∃ polygons0, initialise E data.length (totalAreaOf E) fuel data = .ok polygons0 ∧
      out.ticks.head? = some (polygons0, 0)) ∧
    out.ticks.getLast? = some (out.polygons, out.iterationCount) ∧
    List.Chain' (fun t t1 => t1.2 = t.2 + 1 ∧
      ∃ f, adapt E data.length fuel t.1 f = .ok t1.1) out.ticks := by
  obtain ⟨polygons0, s, hinit, hloop, hpol, _, hticks, _, hinv, _, _⟩ :=
    voronoiMap_spec E fuel data out h
  obtain ⟨hhead, hchain⟩ := mainLoop_ticks E _ _ fuel polygons0 _ s hloop
  obtain ⟨_, hidx, hlast, _⟩ := hinv
  rw [hticks, hpol]
  refine ⟨?_, hidx, ⟨polygons0, hinit, hhead⟩, hlast, hchain⟩
  have := congrArg List.length hidx
  simpa using this

theorem tick_called_once_per_iteration_witness :
    twoOut.ticks.length = twoOut.iterationCount + 1 ∧
    twoOut.ticks.map (fun t => t.2) = List.range (twoOut.iterationCount + 1) ∧
    twoOut.ticks.getLast? = some (twoOut.polygons, twoOut.iterationCount) :=
  have h := tick_called_once_per_iteration twoEnv 1 [1, 1] twoOut twoEnv_run
  ⟨h.1, h.2.1, h.2.2.2.1⟩

theorem shrinkEnv_adaptWeights :
    adaptWeights shrinkEnv [(1 : ℚ), 1].length 1
      (shrinkEnv.wVoronoi (adaptedTreemapPoints [(1 : ℚ), 1].length
        (twoCells.map fun p => p.site) twoCells0))
      (shrinkEnv.flickeringRatio (totalAreaOf shrinkEnv) []) = .error .typeError := by
  norm_num [adaptWeights, adaptedTreemapPoints, shrinkEnv, twoEnv, demoEnv, twoCells0, twoCells,
    leftCell, halfCells]

theorem shrinkEnv_run : voronoiMap shrinkEnv 1 [1, 1] = .error .typeError := by
  unfold voronoiMap
  simp only [shrinkEnv_initialise]
  have hbody : loopBody shrinkEnv [(1 : ℚ), 1].length (totalAreaOf shrinkEnv) 1 0
      { polygons := twoCells0, converged := false, areaError := none, errors := [],
        ticks := [(twoCells0, 0)] } = .error .typeError := by
    simp only [loopBody, adapt, shrinkEnv_adaptPlacements, shrinkEnv_adaptWeights]
  rw [mainLoop_body_error shrinkEnv _ _ 1 0 _ _ rfl (by decide) hbody]

/-- C12, as stated, fails: in `shrinkEnv` the construction returns one cell for two
sites after the placement step of the first iteration; the check of lines 133-136
raises nothing, and the run ends with the `TypeError` of `adaptWeights` reading
`polygons[1]`, the fault that a call of an unknown corrector variant gives as well:
no error of its own is signalled for the degenerate diagram. -/
theorem degenerate_diagram_gives_plain_type_error :
    adaptPlacements shrinkEnv [(1 : ℚ), 1].length 1 twoCells0
      (shrinkEnv.flickeringRatio (totalAreaOf shrinkEnv) []) =
      .ok (twoCells.map fun p => p.site) ∧
    (shrinkEnv.wVoronoi (adaptedTreemapPoints [(1 : ℚ), 1].length
      (twoCells.map fun p => p.site) twoCells0)).length < [(1 : ℚ), 1].length ∧
    adaptWeights shrinkEnv [(1 : ℚ), 1].length 1
      (shrinkEnv.wVoronoi (adaptedTreemapPoints [(1 : ℚ), 1].length
        (twoCells.map fun p => p.site) twoCells0))
      (shrinkEnv.flickeringRatio (totalAreaOf shrinkEnv) []) = .error .typeError ∧
    voronoiMap shrinkEnv 1 [1, 1] = .error .typeError ∧
    handleOverweighted oddVariantEnv 2 1 twoPoints = .error .typeError := by
  refine ⟨shrinkEnv_adaptPlacements, ?_, shrinkEnv_adaptWeights, shrinkEnv_run, rfl⟩
  norm_num [adaptedTreemapPoints, shrinkEnv, twoEnv, demoEnv, twoCells0, twoCells, leftCell,
    halfCells]

/-! ## Termination of the fitting loop -/

theorem mainLoop_returns {ι : Type} (E : Env ι) (n : Nat) (T : ℚ) (fuel : Nat)
    (polygons0 : List (Polygon ι))
    (hbody : ∀ i s, Reached E n T fuel polygons0 i s → s.converged = false →
      i < E.maxIterationCount → ∃ s1, loopBody E n T fuel i s = .ok s1) :
    ∀ (d i : Nat) (s : LoopState ι), E.maxIterationCount - i = d →
      Reached E n T fuel polygons0 i s → ∃ k r, mainLoop E n T fuel i s = .ok (k, r) := by
  intro d
  induction d with
  | zero =>
    intro i s hd _
    exact ⟨i, s, by rw [mainLoop, dif_pos (Or.inr (by omega))]⟩
  | succ d ih =>
    intro i s hd hreach
    by_cases hstop : s.converged = true ∨ i ≥ E.maxIterationCount
    · exact ⟨i, s, by rw [mainLoop, dif_pos hstop]⟩
    · have hgo := hstop
      simp only [not_or, ge_iff_le, not_le, Bool.not_eq_true] at hgo
      obtain ⟨s1, hs1⟩ := hbody i s hreach hgo.1 hgo.2
      obtain ⟨k, r, hk⟩ := ih (i + 1) s1 (by omega) (Reached.step hreach hgo.1 hgo.2 hs1)
      refine ⟨k, r, ?_⟩
      rw [mainLoop, dif_neg hstop]
      simp only [hs1]
      exact hk

theorem mainLoop_error_reached {ι : Type} (E : Env ι) (n : Nat) (T : ℚ) (fuel : Nat)
    (polygons0 : List (Polygon ι)) (e : Fault) :
    ∀ (d i : Nat) (s : LoopState ι), E.maxIterationCount - i = d →
      Reached E n T fuel polygons0 i s → mainLoop E n T fuel i s = .error e →
      ∃ (i1 : Nat) (s1 : LoopState ι), Reached E n T fuel polygons0 i1 s1 ∧
        s1.converged = false ∧ i1 < E.maxIterationCount ∧
        loopBody E n T fuel i1 s1 = .error e := by
  intro d
  induction d with
  | zero =>
    intro i s hd _ h
    rw [mainLoop, dif_pos (Or.inr (by omega))] at h
    cases h
  | succ d ih =>
    intro i s hd hreach h
    rw [mainLoop] at h
    split at h
    · cases h
    · rename_i hgo
      simp only [not_or, ge_iff_le, not_le, Bool.not_eq_true] at hgo
      split at h
      · rename_i e1 hbody
        cases h
        exact ⟨i, s, hreach, hgo.1, hgo.2, hbody⟩
      · rename_i s1 hbody
        exact ih (i + 1) s1 (by omega) (Reached.step hreach hgo.1 hgo.2 hbody) h

/-- C5, as stated, fails: for one item and the clip `[(0,0),(10,0),(5,0)]`, in which
no point passes the containment test, every call of a collaborator returns and no
overweight correction is ever started, yet `_voronoiMap` returns for no number of
sampling attempts. -/
theorem flat_clip_call_never_returns :
    (∀ p, flatEnv.polygonContains flatEnv.clip p = false) ∧
    ¬ ∃ (fuel : Nat) (out : Output ℚ), voronoiMap flatEnv fuel [1] = .ok out := by
  refine ⟨fun _ => rfl, ?_⟩
  rintro ⟨fuel, out, h⟩
  rw [voronoiMap_sampling_never flatEnv [1] (by simp) (fun _ => rfl) fuel] at h
  cases h

/-- C5, amended: when the initialisation returns and every execution of the loop
body that the run comes to returns, the call of `_voronoiMap` returns, with
`iterationCount <= maxIterationCount`, after `iterationCount` executions of the loop
body (one error recorded and one `tick` each); every returned call has these bounds,
and a call that fails does so with the fault of the initialisation or of a loop body
that the run came to. -/
theorem returns_within_iteration_cap {ι : Type} (E : Env ι) (fuel : Nat) (data : List ι) :
    (∀ polygons0, initialise E data.length (totalAreaOf E) fuel data = .ok polygons0 →
      (∀ i s, Reached E data.length (totalAreaOf E) fuel polygons0 i s →
        s.converged = false → i < E.maxIterationCount →
        ∃ s1, loopBody E data.length (totalAreaOf E) fuel i s = .ok s1) →
      ∃ out, voronoiMap E fuel data = .ok out ∧
        out.iterationCount ≤ E.maxIterationCount ∧
        out.errors.length = out.iterationCount ∧
        out.ticks.length = out.iterationCount + 1) ∧
    (∀ out, voronoiMap E fuel data = .ok out →
      out.iterationCount ≤ E.maxIterationCount ∧
      out.errors.length = out.iterationCount ∧
      out.ticks.length = out.iterationCount + 1) ∧
    (∀ e, voronoiMap E fuel data = .error e →
      initialise E data.length (totalAreaOf E) fuel data = .error e ∨
      ∃ (polygons0 : List (Polygon ι)) (i : Nat) (s : LoopState ι),
        initialise E data.length (totalAreaOf E) fuel data = .ok polygons0 ∧
        Reached E data.length (totalAreaOf E) fuel polygons0 i s ∧
        s.converged = false ∧ i < E.maxIterationCount ∧
        loopBody E data.length (totalAreaOf E) fuel i s = .error e) := by
  have hbounds : ∀ out, voronoiMap E fuel data = .ok out →
      out.iterationCount ≤ E.maxIterationCount ∧
      out.errors.length = out.iterationCount ∧
      out.ticks.length = out.iterationCount + 1 := by
    intro out h
    obtain ⟨_, s, _, _, _, _, hticks, herr, hinv, hle, _⟩ := voronoiMap_spec E fuel data out h
    refine ⟨hle, by rw [herr]; exact hinv.1, ?_⟩
    have := congrArg List.length hinv.2.1
    rw [hticks]
    simpa using this
  refine ⟨?_, hbounds, ?_⟩
  · intro polygons0 hinit hbody
    obtain ⟨k, r, hk⟩ := mainLoop_returns E _ _ fuel polygons0 hbody
      (E.maxIterationCount - 0) 0 _ rfl Reached.start
    have hrun : voronoiMap E fuel data = .ok
        { polygons := r.polygons, iterationCount := k,
          convergenceRatio := r.areaError.map fun areaError => areaError / totalAreaOf E,
          ticks := r.ticks, errors := r.errors } := by
      unfold voronoiMap
      simp only [hinit, hk]
    exact ⟨_, hrun, hbounds _ hrun⟩
  · intro e h
    unfold voronoiMap at h
    simp only at h
    split at h
    · rename_i e1 hinit
      cases h
      exact Or.inl hinit
    · rename_i polygons0 hinit
      split at h
      · rename_i e1 hloop
        cases h
        obtain ⟨i, s, hreach, hc, hi, hb⟩ := mainLoop_error_reached E _ _ fuel polygons0 e
          (E.maxIterationCount - 0) 0 _ rfl Reached.start hloop
        exact Or.inr ⟨polygons0, i, s, hinit, hreach, hc, hi, hb⟩
      · cases h

theorem twoEnv_initialise :
    initialise twoEnv [(1 : ℚ), 1].length (totalAreaOf twoEnv) 1 [1, 1] = .ok twoCells0 := by
  simp only [initialise, twoEnv_initialPoints, twoEnv_wVoronoi]

theorem twoEnv_loopBody :
    loopBody twoEnv [(1 : ℚ), 1].length (totalAreaOf twoEnv) 1 0
      { polygons := twoCells0, converged := false, areaError := none, errors := [],
        ticks := [(twoCells0, 0)] } =
      .ok { polygons := twoCells, converged := true, areaError := some 0, errors := [0],
            ticks := [(twoCells0, 0), (twoCells, 1)] } := by
  have hT : totalAreaOf twoEnv = 100 := totalAreaOf_demoEnv _ _ _ _
  have hf : twoEnv.flickeringRatio = fun _ _ => 0 := rfl
  have hc : twoEnv.convergenceRatio = 1 / 100 := rfl
  simp only [hT, loopBody, hf, List.length_cons, List.length_nil, Nat.zero_add, Nat.reduceAdd,
    twoEnv_adapt, twoEnv_areaError, hc]
  norm_num

/-- In `twoEnv` the loop test is passed only in the state in which the loop starts. -/
theorem twoEnv_reached (i : Nat) (s : LoopState ℚ)
    (h : Reached twoEnv [(1 : ℚ), 1].length (totalAreaOf twoEnv) 1 twoCells0 i s) :
    (i = 0 ∧ s = (⟨twoCells0, false, none, [], [(twoCells0, 0)]⟩ : LoopState ℚ)) ∨
      s.converged = true := by
  induction h with
  | start => exact Or.inl ⟨rfl, rfl⟩
  | step _ hc _ hbody ih =>
    rcases ih with ⟨hi, hs⟩ | hconv
    · subst hi
      subst hs
      rw [twoEnv_loopBody] at hbody
      cases hbody
      exact Or.inr rfl
    · rw [hc] at hconv
      cases hconv

theorem returns_within_iteration_cap_witness :
    ∃ out, voronoiMap twoEnv 1 [1, 1] = .ok out ∧
      out.iterationCount ≤ twoEnv.maxIterationCount ∧
      out.errors.length = out.iterationCount ∧
      out.ticks.length = out.iterationCount + 1 :=
  (returns_within_iteration_cap twoEnv 1 [1, 1]).1 twoCells0 twoEnv_initialise
    (fun i s hreach hc _ => by
      rcases twoEnv_reached i s hreach with ⟨hi, hs⟩ | hconv
      · subst hi
        subst hs
        exact ⟨_, twoEnv_loopBody⟩
      · rw [hc] at hconv
        cases hconv)

end VoronoiMap
